import Mathlib

/-!
# go-mango: a shallow embedding of `mango.go`

The client of the telephony provider's HTTP API is embedded function by function.

* Go strings and byte slices are lists of bytes (`GoString`); slicing is byte slicing.
* A Go call either returns or panics at run time (`Run`); an `error` result is `GoError`,
  `none` standing for `nil`.
* The standard library pieces the client calls (`strings.Split`, `strconv.ParseInt`,
  `strconv.Atoi`, `encoding/csv`, `crypto/sha256`, `fmt` verbs) are embedded from their
  documented behaviour; the HTTP transport and the JSON codec are parameters (`Lib`).
-/

namespace Mango

/-! ## Go values -/

/-- Go `string` / `[]byte`: a sequence of bytes. -/
abbrev GoString := List UInt8

/-- The bytes of a string literal of the source (UTF-8, as Go stores literals). -/
def utf8 (s : String) : GoString := s.data.flatMap String.utf8EncodeChar

/-- Go `error`: `none` is `nil`, `some msg` an error with that message. -/
abbrev GoError := Option GoString

/-- Run-time panics the client can raise. -/
inductive Panic where
  | indexOutOfRange
  | sliceBoundsOutOfRange
  | nilDereference
  deriving DecidableEq, Repr

/-- Outcome of running a Go function: it returns a value or it panics. -/
inductive Run (α : Type) where
  | ret (a : α)
  | panics (p : Panic)
  deriving DecidableEq, Repr

/-- Sequencing of Go statements: a panic aborts what follows. -/
def Run.bind {α β : Type} (x : Run α) (f : α → Run β) : Run β :=
  match x with
  | .ret a => f a
  | .panics p => .panics p

instance : Monad Run where
  pure := Run.ret
  bind := Run.bind

/-- Indexing `xs[i]` of a slice: panics when `i` is not below `len(xs)`. -/
def index {α : Type} (xs : List α) (i : Nat) : Run α :=
  match xs.get? i with
  | some x => .ret x
  | none => .panics .indexOutOfRange

/-- Slicing `s[lo:]` of a string: panics unless `0 <= lo <= len(s)`. -/
def sliceFrom (s : GoString) (lo : Int) : Run GoString :=
  if 0 ≤ lo ∧ lo ≤ (s.length : Int) then .ret (s.drop lo.toNat) else .panics .sliceBoundsOutOfRange

/-- Slicing `s[:hi]` of a string: panics unless `0 <= hi <= len(s)`. -/
def sliceTo (s : GoString) (hi : Int) : Run GoString :=
  if 0 ≤ hi ∧ hi ≤ (s.length : Int) then .ret (s.take hi.toNat) else .panics .sliceBoundsOutOfRange

/-! ## Standard library: `strings`, `fmt` -/

/-- The byte `,`. -/
def comma : UInt8 := 44

/-- The byte `;`, the `Comma` of the CSV reader built by `statsUnmarshal`. -/
def semicolon : UInt8 := 59

/-- The byte `"`. -/
def quote : UInt8 := 34

/-- The byte `\n`. -/
def nl : UInt8 := 10

/-- The byte `\r`. -/
def cr : UInt8 := 13

/-- Go `strings.Split(s, sep)` for a one-byte separator: the pieces of `s` between the
occurrences of `sep`; a string without `sep` (the empty one included) gives one piece. -/
def stringsSplit (s : GoString) (sep : UInt8) : List GoString := s.splitOn sep

/-- Go `strings.Join(xs, sep)` for a one-byte separator. -/
def stringsJoin (xs : List GoString) (sep : UInt8) : GoString := [sep].intercalate xs

/-- Decimal digits of a natural number, most significant first, put in front of `acc`; the
fuel bounds the digit count (`decimalDigits_eq`). -/
def decimalDigits : Nat → Nat → GoString → GoString
  | 0, _, acc => acc
  | fuel + 1, n, acc =>
    let acc := UInt8.ofNat (48 + n % 10) :: acc
    if n / 10 = 0 then acc else decimalDigits fuel (n / 10) acc

/-- Go `fmt` verb `%d` applied to an integer. -/
def fmtInt (i : Int) : GoString :=
  if i < 0 then 45 :: decimalDigits (i.natAbs + 1) i.natAbs [] else decimalDigits (i.natAbs + 1) i.natAbs []

/-- One lowercase hexadecimal digit. -/
def hexDigit (n : Nat) : UInt8 := UInt8.ofNat (if n < 10 then 48 + n else 87 + n)

/-- Go `fmt` verb `%x` applied to a byte array: two lowercase hex digits per byte. -/
def fmtHex (bs : List UInt8) : GoString :=
  bs.flatMap (fun b => [hexDigit (b.toNat / 16), hexDigit (b.toNat % 16)])

/-! ## Standard library: `strconv` -/

/-- The error kinds of `strconv`: `ErrSyntax` (the text is not a number) and `ErrRange`
(the number does not fit the bit size). -/
inductive NumError where
  | notANumber
  | outOfRange
  deriving DecidableEq, Repr

/-- The digit loop of Go `strconv.ParseUint(s, 10, bitSize)`; `n` is the `uint64` accumulator.
The cutoff `maxUint64/10 + 1` guards `n * 10`, and `n1 < n || n1 > maxVal` guards `n + d`. -/
def parseUintLoop (maxVal : Nat) : List UInt8 → Nat → Nat × Option NumError
  | [], n => (n, none)
  | c :: cs, n =>
    if 48 ≤ c.toNat ∧ c.toNat ≤ 57 then
      let d := c.toNat - 48
      if n ≥ 18446744073709551615 / 10 + 1 then (maxVal, some .outOfRange)
      else
        let n := n * 10
        let n1 := (n + d) % 18446744073709551616
        if n1 < n ∨ n1 > maxVal then (maxVal, some .outOfRange)
        else parseUintLoop maxVal cs n1
    else (0, some .notANumber)

/-- Go `strconv.ParseUint(s, 10, bitSize)`. -/
def ParseUint (s : GoString) (bitSize : Nat) : Nat × Option NumError :=
  if s = [] then (0, some .notANumber)
  else parseUintLoop (2 ^ bitSize - 1) s 0

/-- Go `strconv.ParseInt(s, 10, bitSize)`: an optional sign, then `ParseUint`; a value out of
range comes back as the extreme value of its sign together with `ErrRange`. -/
def ParseInt (s : GoString) (bitSize : Nat) : Int × Option NumError :=
  match s with
  | [] => (0, some .notANumber)
  | c :: cs =>
    let neg := c = 45
    let digits := if c = 43 ∨ c = 45 then cs else s
    match ParseUint digits bitSize with
    | (_, some .notANumber) => (0, some .notANumber)
    | (un, _) =>
      let cutoff : Nat := 2 ^ (bitSize - 1)
      if ¬ neg ∧ un ≥ cutoff then ((cutoff : Int) - 1, some .outOfRange)
      else if neg ∧ un > cutoff then (-(cutoff : Int), some .outOfRange)
      else (if neg then -(un : Int) else (un : Int), none)

/-- Go `strconv.IntSize` of the platform the client is built for. -/
def intSize : Nat := 64

/-- Go `strconv.Atoi(s)`: `ParseInt(s, 10, 0)` converted to `int`. -/
def Atoi (s : GoString) : Int × Option NumError := ParseInt s intSize

/-! ## Standard library: `encoding/csv`

The reader as `statsUnmarshal` builds it: `Comma = ';'`, no comment character, strict quotes,
no trimming, `FieldsPerRecord = 0` (every record must have as many fields as the first).
The input is an in-memory byte reader, so the only read error is `io.EOF`. -/

/-- The errors of `csv.Reader.Read`. -/
inductive CsvError where
  | EOF
  | ErrBareQuote
  | ErrQuote
  | ErrFieldCount
  deriving DecidableEq, Repr

/-- Go `csv.Reader`: the unread input and the expected number of fields per record. -/
structure Reader where
  input : List UInt8
  FieldsPerRecord : Nat
  deriving DecidableEq, Repr

/-- Go `csv.NewReader(bytes.NewReader(body))` followed by `reader.Comma = ';'`. -/
def NewReader (body : List UInt8) : Reader := ⟨body, 0⟩

/-- Go `bufio.Reader.ReadSlice('\n')`: the bytes up to and including the first newline, and
the rest; `true` flags `io.EOF` (input ended before a newline). -/
def readSlice : List UInt8 → List UInt8 × Bool × List UInt8
  | [] => ([], true, [])
  | b :: bs =>
    if b = nl then ([b], false, bs)
    else
      let r := readSlice bs
      (b :: r.1, r.2.1, r.2.2)

/-- Go `lengthNL`: 1 when the line ends in a newline, else 0. -/
def lengthNL (b : List UInt8) : Nat := if b.getLast? = some nl then 1 else 0

/-- Go `csv.Reader.readLine`: a last line without newline is not an EOF (and loses a trailing
`\r`); a final `\r\n` becomes `\n`. -/
def readLine (input : List UInt8) : List UInt8 × Bool × List UInt8 :=
  let r := readSlice input
  let line := r.1
  let eof := r.2.1
  let readSize := line.length
  let line1 := if readSize > 0 ∧ eof ∧ line.getLast? = some cr then line.dropLast else line
  let eof1 := if readSize > 0 ∧ eof then false else eof
  let n := line1.length
  let line2 :=
    if n ≥ 2 ∧ line1.get? (n - 2) = some cr ∧ line1.get? (n - 1) = some nl then
      line1.take (n - 2) ++ [nl]
    else line1
  (line2, eof1, r.2.2)

/-- The loop of `readRecord` that reads the next line, skipping empty ones. The fuel bounds the
number of lines read; every skipped line consumes input, so a fuel above the input length is
never used up (`nextLine_fuel`). -/
def nextLine : Nat → List UInt8 → List UInt8 × Bool × List UInt8
  | 0, input => ([], true, input)
  | fuel + 1, input =>
    let r := readLine input
    if ¬ r.2.1 ∧ r.1.length = lengthNL r.1 then nextLine fuel r.2.2 else r

/-- Go `bytes.IndexByte`. -/
def indexByte (line : List UInt8) (c : UInt8) : Option Nat :=
  if line.indexOf c < line.length then some (line.indexOf c) else none

/-- The `parseField` loop of `readRecord`. `inQuote` tells whether the inner loop of a quoted
field is running, `cur` is the text of that field so far, `fields` the completed fields and
`rest` the input after `line`. Every step consumes input, so a fuel above the length of
`line` and `rest` is never used up (`parseFields_fuel`). -/
def parseFields : Nat → Bool → List UInt8 → List UInt8 → List GoString → GoString →
    List GoString × Option CsvError × List UInt8
  | 0, _, _, rest, fields, _ => (fields, some .ErrQuote, rest)
  | fuel + 1, false, line, rest, fields, _ =>
    if line.head? ≠ some quote then
      -- non-quoted field
      match indexByte line semicolon with
      | some i =>
        let field := line.take i
        if quote ∈ field then (fields, some .ErrBareQuote, rest)
        else parseFields fuel false (line.drop (i + 1)) rest (fields ++ [field]) []
      | none =>
        let field := line.take (line.length - lengthNL line)
        if quote ∈ field then (fields, some .ErrBareQuote, rest)
        else (fields ++ [field], none, rest)
    else
      -- quoted field
      parseFields fuel true (line.drop 1) rest fields []
  | fuel + 1, true, line, rest, fields, cur =>
    match indexByte line quote with
    | some i =>
      -- hit next quote
      let cur := cur ++ line.take i
      let line := line.drop (i + 1)
      if line.head? = some quote then
        parseFields fuel true (line.drop 1) rest fields (cur ++ [quote])
      else if line.head? = some semicolon then
        parseFields fuel false (line.drop 1) rest (fields ++ [cur]) []
      else if lengthNL line = line.length then (fields ++ [cur], none, rest)
      else (fields, some .ErrQuote, rest)
    | none =>
      if line.length > 0 then
        -- hit end of line: copy it and read the next one
        let r := readLine rest
        parseFields fuel true r.1 r.2.2 fields (cur ++ line)
      else
        -- abrupt end of file
        (fields, some .ErrQuote, rest)

/-- Go `csv.Reader.Read` (`readRecord`): the record, the error, and the reader afterwards. -/
def Reader.Read (r : Reader) : (List GoString × Option CsvError) × Reader :=
  let l := nextLine (r.input.length + 1) r.input
  if l.2.1 then (([], some .EOF), ⟨l.2.2, r.FieldsPerRecord⟩)
  else
    let p := parseFields (l.1.length + l.2.2.length + 1) false l.1 l.2.2 [] []
    let dst := p.1
    if r.FieldsPerRecord > 0 then
      if dst.length ≠ r.FieldsPerRecord ∧ p.2.1 = none then
        ((dst, some .ErrFieldCount), ⟨p.2.2, r.FieldsPerRecord⟩)
      else ((dst, p.2.1), ⟨p.2.2, r.FieldsPerRecord⟩)
    else ((dst, p.2.1), ⟨p.2.2, dst.length⟩)

/-! ## Standard library: `crypto/sha256` (FIPS 180-4), on 32-bit words held in `Nat` -/

/-- Round constants of SHA-256. -/
def sha256K : List Nat := [
  0x428a2f98, 0x71374491, 0xb5c0fbcf, 0xe9b5dba5, 0x3956c25b, 0x59f111f1, 0x923f82a4, 0xab1c5ed5,
  0xd807aa98, 0x12835b01, 0x243185be, 0x550c7dc3, 0x72be5d74, 0x80deb1fe, 0x9bdc06a7, 0xc19bf174,
  0xe49b69c1, 0xefbe4786, 0x0fc19dc6, 0x240ca1cc, 0x2de92c6f, 0x4a7484aa, 0x5cb0a9dc, 0x76f988da,
  0x983e5152, 0xa831c66d, 0xb00327c8, 0xbf597fc7, 0xc6e00bf3, 0xd5a79147, 0x06ca6351, 0x14292967,
  0x27b70a85, 0x2e1b2138, 0x4d2c6dfc, 0x53380d13, 0x650a7354, 0x766a0abb, 0x81c2c92e, 0x92722c85,
  0xa2bfe8a1, 0xa81a664b, 0xc24b8b70, 0xc76c51a3, 0xd192e819, 0xd6990624, 0xf40e3585, 0x106aa070,
  0x19a4c116, 0x1e376c08, 0x2748774c, 0x34b0bcb5, 0x391c0cb3, 0x4ed8aa4a, 0x5b9cca4f, 0x682e6ff3,
  0x748f82ee, 0x78a5636f, 0x84c87814, 0x8cc70208, 0x90befffa, 0xa4506ceb, 0xbef9a3f7, 0xc67178f2]

/-- Initial hash value of SHA-256. -/
def sha256Init : List Nat := [
  0x6a09e667, 0xbb67ae85, 0x3c6ef372, 0xa54ff53a, 0x510e527f, 0x9b05688c, 0x1f83d9ab, 0x5be0cd19]

/-- Truncation to a 32-bit word. -/
def w32 (n : Nat) : Nat := n % 4294967296

/-- Rotation of a 32-bit word to the right by `n` bits. -/
def rotr (x n : Nat) : Nat := (x >>> n) ||| w32 (x <<< (32 - n))

/-- Padding of the message: the bit `1`, zeros up to 56 modulo 64 bytes, then the bit length
as a 64-bit big-endian integer. -/
def sha256Pad (msg : List UInt8) : List Nat :=
  let l := msg.length
  msg.map UInt8.toNat ++ [128] ++ List.replicate ((119 - l % 64) % 64) 0 ++
    (List.range 8).map (fun i => ((8 * l) >>> (8 * (7 - i))) % 256)

/-- The first `n` blocks of 64 bytes. -/
def sha256Blocks : Nat → List Nat → List (List Nat)
  | 0, _ => []
  | n + 1, m => m.take 64 :: sha256Blocks n (m.drop 64)

/-- Big-endian word `i` of a block. -/
def sha256Word (b : List Nat) (i : Nat) : Nat :=
  b.getD (4 * i) 0 * 16777216 + b.getD (4 * i + 1) 0 * 65536 + b.getD (4 * i + 2) 0 * 256 +
    b.getD (4 * i + 3) 0

/-- Message schedule: 16 words of the block extended to 64. -/
def sha256Schedule (b : List Nat) : List Nat :=
  (List.range 48).foldl (fun w _ =>
    let n := w.length
    let w15 := w.getD (n - 15) 0
    let w2 := w.getD (n - 2) 0
    let s0 := rotr w15 7 ^^^ rotr w15 18 ^^^ (w15 >>> 3)
    let s1 := rotr w2 17 ^^^ rotr w2 19 ^^^ (w2 >>> 10)
    w ++ [w32 (w.getD (n - 16) 0 + s0 + w.getD (n - 7) 0 + s1)]) ((List.range 16).map (sha256Word b))

/-- One round of the compression function on the working variables `a..h`. -/
def sha256Round (s : List Nat) (kw : Nat × Nat) : List Nat :=
  match s with
  | [a, b, c, d, e, f, g, h] =>
    let S1 := rotr e 6 ^^^ rotr e 11 ^^^ rotr e 25
    let ch := (e &&& f) ^^^ ((4294967295 - e) &&& g)
    let t1 := h + S1 + ch + kw.1 + kw.2
    let S0 := rotr a 2 ^^^ rotr a 13 ^^^ rotr a 22
    let maj := (a &&& b) ^^^ (a &&& c) ^^^ (b &&& c)
    let t2 := S0 + maj
    [w32 (t1 + t2), a, b, c, w32 (d + t1), e, f, g]
  | _ => s

/-- Compression of one block into the hash value. -/
def sha256Compress (h : List Nat) (b : List Nat) : List Nat :=
  List.zipWith (fun x y => w32 (x + y)) h ((sha256K.zip (sha256Schedule b)).foldl sha256Round h)

/-- The eight hash words after all blocks of the padded message. -/
def sha256Words (msg : List UInt8) : List Nat :=
  let p := sha256Pad msg
  (sha256Blocks (p.length / 64) p).foldl sha256Compress sha256Init

/-- Go `sha256.Sum256`: the digest, the hash words in big-endian bytes. -/
def Sum256 (msg : List UInt8) : List UInt8 :=
  (sha256Words msg).flatMap (fun w =>
    [UInt8.ofNat (w >>> 24), UInt8.ofNat ((w >>> 16) % 256), UInt8.ofNat ((w >>> 8) % 256),
      UInt8.ofNat (w % 256)])

/-! ## `mango.go`: constants and structures -/

/-- Source constant `apiUrl`. -/
def apiUrl : GoString := utf8 "https://app.mango-office.ru/vpbx"

/-- Source constant `pathUsers`. -/
def pathUsers : GoString := apiUrl ++ utf8 "/config/users/request"

/-- Source constant `pathStatsRequest`. -/
def pathStatsRequest : GoString := apiUrl ++ utf8 "/stats/request"

/-- Source constant `pathStatsResult`. -/
def pathStatsResult : GoString := apiUrl ++ utf8 "/stats/result"

/-- Source constant `statsFields`. -/
def statsFields : GoString :=
  utf8 "records,start,finish,answer,from_extension,from_number,to_extension,to_number,disconnect_reason,line_number,location,entry_id"

/-- Source constant (iota 0). -/
def statsFieldRecords : Nat := 0
/-- Source constant (iota 1). -/
def statsFieldStart : Nat := 1
/-- Source constant (iota 2). -/
def statsFieldFinish : Nat := 2
/-- Source constant (iota 3). -/
def statsFieldAnswer : Nat := 3
/-- Source constant (iota 4). -/
def statsFieldFromExtension : Nat := 4
/-- Source constant (iota 5). -/
def statsFieldFromNumber : Nat := 5
/-- Source constant (iota 6). -/
def statsFieldToExtension : Nat := 6
/-- Source constant (iota 7). -/
def statsFieldToNumber : Nat := 7
/-- Source constant (iota 8). -/
def statsFieldDisconnectReason : Nat := 8
/-- Source constant (iota 9). -/
def statsFieldLineNumber : Nat := 9
/-- Source constant (iota 10). -/
def statsFieldLocation : Nat := 10
/-- Source constant (iota 11). -/
def statsFieldEntryId : Nat := 11

/-- Source struct `Client`: the credentials. -/
structure Client where
  VpbxApiKey : GoString
  VpbxApiSalt : GoString
  deriving DecidableEq, Repr

/-- Source struct `Call`: one decoded row. -/
structure Call where
  Records : List GoString
  Start : Int
  Finish : Int
  Answer : Int
  FromExtension : GoString
  FromNumber : GoString
  ToExtension : GoString
  ToNumber : GoString
  DisconnectReason : Int
  LineNumber : GoString
  EntryId : GoString
  Location : GoString
  deriving DecidableEq, Repr

/-- Go `url.Values`: the fields of a form, each with its list of values. -/
abbrev Values := List (GoString × List GoString)

/-- The element type of `User.Telephony.Numbers`. -/
structure UserNumber where
  Number : GoString
  Protocol : GoString
  Order : Int
  WaitSec : Int
  Status : GoString
  deriving DecidableEq, Repr

/-- The type of `User.General`. -/
structure UserGeneral where
  Name : GoString
  Email : GoString
  Department : GoString
  Position : GoString
  deriving DecidableEq, Repr

/-- The type of `User.Telephony`. -/
structure UserTelephony where
  Extension : GoString
  Outgoingline : GoString
  Numbers : List UserNumber
  deriving DecidableEq, Repr

/-- Source struct `User`. -/
structure User where
  General : UserGeneral
  Telephony : UserTelephony
  deriving DecidableEq, Repr

/-- The zero value of `User`, what an unassigned result `user` holds. -/
def User.zero : User := ⟨⟨[], [], [], []⟩, ⟨[], [], []⟩⟩

/-- Source struct `statsKey`. -/
structure statsKey where
  Key : GoString
  deriving DecidableEq, Repr

/-- Source struct `stats`. -/
structure stats where
  FromDate : Int
  ToDate : Int
  Fields : GoString
  RequestId : GoString
  deriving DecidableEq, Repr

/-- Source function `newStats`. -/
def newStats (fromDate : Int) (toDate : Int) (requestId : GoString) : stats :=
  { FromDate := fromDate, ToDate := toDate, Fields := statsFields, RequestId := requestId }

/-- Source struct `userExtension`. -/
structure userExtension where
  Extension : GoString
  deriving DecidableEq, Repr

/-- Go `time.Time`, of which the client only reads `Unix()`. -/
structure Time where
  Unix : Int
  deriving DecidableEq, Repr

/-- The values the client passes to `json.Marshal`. -/
inductive Payload where
  | ofStats (v : stats)
  | ofStatsKey (v : statsKey)
  | ofUserExtension (v : userExtension)
  deriving DecidableEq, Repr

/-- What the client reads of a Go `http.Response`: the status code and the result of
`ioutil.ReadAll(response.Body)`, the bytes read and the read error. -/
structure Response where
  StatusCode : Int
  Body : GoString
  ReadErr : GoError
  deriving DecidableEq, Repr

/-- The external collaborators: the HTTP transport and the JSON codec. `PostForm` gives the
response pointer (`none` is `nil`) and the error; `Unmarshal*` give the decoded target and
the error of `json.Unmarshal`. -/
structure Lib where
  PostForm : GoString → Values → Option Response × GoError
  Marshal : Payload → GoString
  UnmarshalStatsKey : GoString → statsKey × GoError
  UnmarshalUsers : GoString → List User × GoError

/-- Go `ioutil.ReadAll(response.Body)`: dereferences the response pointer. -/
def readAll (response : Option Response) : Run (GoString × GoError) :=
  match response with
  | none => .panics .nilDereference
  | some r => .ret (r.Body, r.ReadErr)

/-- Go `response.StatusCode`: dereferences the response pointer. -/
def statusCode (response : Option Response) : Run Int :=
  match response with
  | none => .panics .nilDereference
  | some r => .ret r.StatusCode

/-- Go `url.Values` lookup of all values stored under a field name. -/
def Values.values (v : Values) (name : GoString) : List (List GoString) :=
  (v.filter (fun kv => kv.1 = name)).map (fun kv => kv.2)

/-! ## `mango.go`: private methods -/

/-- Source method `Client.sign`: `%x` of the SHA-256 digest of key, payload and salt. -/
def Client.sign (client : Client) (json : GoString) : GoString :=
  let sum256 := Sum256 (client.VpbxApiKey ++ json ++ client.VpbxApiSalt)
  fmtHex sum256

/-- Source method `Client.formData`. -/
def Client.formData (client : Client) (json : GoString) : Values :=
  [ (utf8 "vpbx_api_key", [client.VpbxApiKey]),
    (utf8 "sign", [client.sign json]),
    (utf8 "json", [json]) ]

/-- Source method `Client.stringToSlice`: `strings.Split(string[1:][:len(string)-2], ",")`,
always with a nil error. -/
def Client.stringToSlice (_client : Client) (string : GoString) : Run (List GoString × GoError) := do
  let tail ← sliceFrom string 1
  let inner ← sliceTo tail ((string.length : Int) - 2)
  return (stringsSplit inner comma, none)

/-- The body of the loop of `statsUnmarshal`: one record of the reader to one `Call`.
Errors of `stringToSlice`, `ParseInt` and `Atoi` are dropped, as in the source. -/
def Client.decodeLine (client : Client) (line : List GoString) : Run Call := do
  let record ← (do let f ← index line statsFieldRecords; client.stringToSlice f)
  let start ← (do let f ← index line statsFieldStart; pure (ParseInt f 64))
  let finish ← (do let f ← index line statsFieldFinish; pure (ParseInt f 64))
  let answer ← (do let f ← index line statsFieldAnswer; pure (ParseInt f 64))
  let disconnectReason ← (do let f ← index line statsFieldDisconnectReason; pure (Atoi f))
  let fromExtension ← index line statsFieldFromExtension
  let fromNumber ← index line statsFieldFromNumber
  let toExtension ← index line statsFieldToExtension
  let toNumber ← index line statsFieldToNumber
  let lineNumber ← index line statsFieldLineNumber
  let location ← index line statsFieldLocation
  let entryId ← index line statsFieldEntryId
  return {
    Records := record.1
    Start := start.1
    Finish := finish.1
    Answer := answer.1
    FromExtension := fromExtension
    FromNumber := fromNumber
    ToExtension := toExtension
    ToNumber := toNumber
    DisconnectReason := disconnectReason.1
    LineNumber := lineNumber
    Location := location
    EntryId := entryId }

/-- The `for` loop of `statsUnmarshal`: `calls` are the records appended so far. Every record
read consumes input, so a fuel above the input length is never used up
(`statsUnmarshalLoop_fuel`). -/
def Client.statsUnmarshalLoop (client : Client) : Nat → Reader → List Call → Run (List Call × GoError)
  | 0, _, calls => .ret (calls, none)
  | fuel + 1, reader, calls =>
    match reader.Read with
    | ((_, some .EOF), _) => .ret (calls, none)
    | ((_, some _), _) => .ret (calls, some (utf8 "error read CSV"))
    | ((line, none), reader1) =>
      match client.decodeLine line with
      | .panics p => .panics p
      | .ret call => client.statsUnmarshalLoop fuel reader1 (calls ++ [call])

/-- Source method `Client.statsUnmarshal`. -/
def Client.statsUnmarshal (client : Client) (body : List UInt8) : Run (List Call × GoError) :=
  client.statsUnmarshalLoop (body.length + 1) (NewReader body) []

/-- Source method `Client.post`: the error of `http.PostForm` is dropped and the result
`err` is never assigned. -/
def Client.post (client : Client) (lib : Lib) (url : GoString) (v : Payload) :
    Option Response × GoError :=
  let jsonString := lib.Marshal v
  let formData := client.formData jsonString
  let response := (lib.PostForm url formData).1
  (response, none)

/-- Source method `Client.statsFields`. -/
def Client.statsFields (_client : Client) : List GoString :=
  [ utf8 "records",
    utf8 "start",
    utf8 "finish",
    utf8 "answer",
    utf8 "from_extension",
    utf8 "from_number",
    utf8 "to_extension",
    utf8 "to_number",
    utf8 "disconnect_reason",
    utf8 "line_number",
    utf8 "location",
    utf8 "entry_id" ]

/-! ## `mango.go`: public methods -/

/-- Source method `Client.StatsKey`. -/
def Client.StatsKey (client : Client) (lib : Lib) (fromDate : Time) (toDate : Time)
    (requestId : GoString) : Run (GoString × GoError) := do
  let fromDateUnixTime := fromDate.Unix
  let toDateUnixTime := toDate.Unix
  let statsRequest := newStats fromDateUnixTime toDateUnixTime requestId
  let jsonString := lib.Marshal (.ofStats statsRequest)
  let formData := client.formData jsonString
  let response := (lib.PostForm pathStatsRequest formData).1
  let body ← readAll response
  let statsKey := (lib.UnmarshalStatsKey body.1).1
  return (statsKey.Key, none)

/-- Source method `Client.Stats`. -/
def Client.Stats (client : Client) (lib : Lib) (key : GoString) (_requestId : GoString) :
    Run (List Call × GoError) := do
  let requestBody : statsKey := { Key := key }
  let response := (client.post lib pathStatsResult (.ofStatsKey requestBody)).1
  let body ← readAll response
  let code ← statusCode response
  if code = 200 then
    let calls ← client.statsUnmarshal body.1
    return (calls.1, none)
  else if code = 404 then
    return ([], some (utf8 "data not found, sended invalid/wrong/expired key"))
  else if code = 204 then
    return ([], some (utf8 "data not ready, retry after 5 seconds"))
  else
    return ([], some (utf8 "unknow error, code: " ++ fmtInt code ++ utf8 ", body: " ++ body.1))

/-- Source method `Client.User`. -/
def Client.User (client : Client) (lib : Lib) (extension : GoString) : Run (User × GoError) := do
  let userExtension : userExtension := { Extension := extension }
  let r := client.post lib pathUsers (.ofUserExtension userExtension)
  if r.2 ≠ none then
    return (User.zero, r.2)
  else
    let body ← readAll r.1
    if body.2 ≠ none then
      return (User.zero, body.2)
    else
      let users := lib.UnmarshalUsers body.1
      if users.2 ≠ none then
        return (User.zero, users.2)
      else
        match users.1 with
        | [] => return (User.zero, some (utf8 "user " ++ extension ++ utf8 " not found"))
        | u :: _ => return (u, none)

/-! ## Concrete collaborators for evaluating the client -/

/-- A transport that answers every request with the response `r`; the JSON codec decodes
every body to empty values. -/
def libAnswering (r : Response) : Lib :=
  { PostForm := fun _ _ => (some r, none)
    Marshal := fun _ => utf8 "{}"
    UnmarshalStatsKey := fun _ => (⟨[]⟩, none)
    UnmarshalUsers := fun _ => ([], none) }

/-- A transport that fails every request: no response and an error. -/
def libFailing : Lib :=
  { PostForm := fun _ _ => (none, some (utf8 "dial tcp: connection refused"))
    Marshal := fun _ => utf8 "{}"
    UnmarshalStatsKey := fun _ => (⟨[]⟩, none)
    UnmarshalUsers := fun _ => ([], none) }

/-! ## Well-formed export rows -/

/-- A field the CSV reader hands over unchanged: free of `;`, `"`, CR and LF. -/
def cleanField (f : GoString) : Prop := semicolon ∉ f ∧ quote ∉ f ∧ cr ∉ f ∧ nl ∉ f

instance (f : GoString) : Decidable (cleanField f) := by
  unfold cleanField; infer_instance

/-- A well-formed row: 12 clean fields, the first of at least 2 bytes. -/
def wellFormedRow (fs : List GoString) : Prop :=
  fs.length = 12 ∧ (∀ f ∈ fs, cleanField f) ∧ 2 ≤ (fs.headD []).length

instance (fs : List GoString) : Decidable (wellFormedRow fs) := by
  unfold wellFormedRow; infer_instance

/-- The text of a row: its fields joined by `;`. -/
def rowText (fs : List GoString) : GoString := stringsJoin fs semicolon

/-- A body of rows, each terminated by a newline. -/
def bodyOfRows (rows : List (List GoString)) : List UInt8 :=
  rows.flatMap (fun fs => rowText fs ++ [nl])

/-- The `Call` the fields of a row stand for, position by position: the bracketed list of
field 0 without its first and last byte split on `,`, the integers of fields 1, 2, 3 and 8
as `ParseInt` and `Atoi` read them, and the other fields as they are. -/
def rowCall (fs : List GoString) : Call :=
  { Records := stringsSplit (((fs.getD 0 []).drop 1).take ((fs.getD 0 []).length - 2)) comma
    Start := (ParseInt (fs.getD 1 []) 64).1
    Finish := (ParseInt (fs.getD 2 []) 64).1
    Answer := (ParseInt (fs.getD 3 []) 64).1
    FromExtension := fs.getD 4 []
    FromNumber := fs.getD 5 []
    ToExtension := fs.getD 6 []
    ToNumber := fs.getD 7 []
    DisconnectReason := (Atoi (fs.getD 8 [])).1
    LineNumber := fs.getD 9 []
    Location := fs.getD 10 []
    EntryId := fs.getD 11 [] }

/-- The result of `Read` on a reader that expects `k` fields (0: any) when the next line holds
the fields `fs`. -/
def readOutcome (fs : List GoString) (k : Nat) (rest : List UInt8) :
    (List GoString × Option CsvError) × Reader :=
  ((fs, if 0 < k ∧ fs.length ≠ k then some .ErrFieldCount else none),
    ⟨rest, if 0 < k then k else fs.length⟩)

/-- A transport that answers every request with the response `r`, with a JSON codec that
decodes every body to the given key and users results. -/
def libDecoding (r : Response) (key : statsKey × GoError) (users : List User × GoError) : Lib :=
  { PostForm := fun _ _ => (some r, none)
    Marshal := fun _ => utf8 "{}"
    UnmarshalStatsKey := fun _ => key
    UnmarshalUsers := fun _ => users }

/-- A user with the given name and extension, and nothing else. -/
def userNamed (name extension : GoString) : User :=
  ⟨⟨name, [], [], []⟩, ⟨extension, [], []⟩⟩

/-- A body of rows separated by newlines, without a newline after the last row. -/
def bodySeparated (rows : List (List GoString)) : List UInt8 :=
  [nl].intercalate (rows.map rowText)

/-! ## Lemmas -/

@[simp] theorem Run.ret_bind {α β : Type} (a : α) (f : α → Run β) : (Run.ret a >>= f) = f a := rfl

@[simp] theorem Run.panics_bind {α β : Type} (p : Panic) (f : α → Run β) :
    (Run.panics p >>= f) = Run.panics p := rfl

@[simp] theorem Run.pure_eq {α : Type} (a : α) : (pure a : Run α) = Run.ret a := rfl

theorem stringToSlice_of_two_le (client : Client) (s : GoString) (h : 2 ≤ s.length) :
    client.stringToSlice s = .ret (stringsSplit ((s.drop 1).take (s.length - 2)) comma, none) := by
  have h1 : (0 : Int) ≤ 1 ∧ (1 : Int) ≤ (s.length : Int) := by omega
  have h2 : (0 : Int) ≤ (s.length : Int) - 2 ∧
      (s.length : Int) - 2 ≤ ((List.drop 1 s).length : Int) := by
    rw [List.length_drop]; omega
  have h3 : ((s.length : Int) - 2).toNat = s.length - 2 := by omega
  simp only [Client.stringToSlice, sliceFrom, sliceTo, h1, h2, h3, and_self, if_true,
    Run.ret_bind, Run.pure_eq, Int.toNat_one]

theorem stringToSlice_bracket (client : Client) (inner : GoString) :
    client.stringToSlice ([91] ++ inner ++ [93]) = .ret (stringsSplit inner comma, none) := by
  rw [stringToSlice_of_two_le client _ (by simp)]
  simp

/-! ### The CSV reader on quote-free lines -/

theorem readSlice_append_nl (l rest : List UInt8) (h : nl ∉ l) :
    readSlice (l ++ nl :: rest) = (l ++ [nl], false, rest) := by
  induction l with
  | nil => simp [readSlice]
  | cons b l ih =>
    simp only [List.mem_cons, not_or] at h
    have hb : b ≠ nl := fun e => h.1 e.symm
    simp [readSlice, hb, ih h.2]

theorem readSlice_of_not_mem (l : List UInt8) (h : nl ∉ l) : readSlice l = (l, true, []) := by
  induction l with
  | nil => simp [readSlice]
  | cons b l ih =>
    simp only [List.mem_cons, not_or] at h
    have hb : b ≠ nl := fun e => h.1 e.symm
    simp [readSlice, hb, ih h.2]

theorem getLast?_ne_of_not_mem (l : List UInt8) (c : UInt8) (h : c ∉ l) : l.getLast? ≠ some c := by
  intro e
  exact h (List.mem_of_getLast?_eq_some e)


theorem readLine_append_nl (l rest : List UInt8) (hnl : nl ∉ l) (hcr : cr ∉ l) :
    readLine (l ++ nl :: rest) = (l ++ [nl], false, rest) := by
  unfold readLine
  simp only [readSlice_append_nl l rest hnl]
  simp
  intro h1 h2
  rw [List.getElem?_append_left (by omega)] at h2
  exact absurd (List.getElem?_mem h2) hcr

theorem readLine_of_not_mem (l : List UInt8) (hne : l ≠ []) (hnl : nl ∉ l) (hcr : cr ∉ l) :
    readLine l = (l, false, []) := by
  have hlast : l.getLast? ≠ some cr := getLast?_ne_of_not_mem l cr hcr
  have hpos : 0 < l.length := List.length_pos.mpr hne
  unfold readLine
  simp only [readSlice_of_not_mem l hnl]
  simp [hlast, hpos]
  intro _ _ h3
  exact absurd (List.getElem_mem _) (h3 ▸ hnl)

theorem indexByte_of_not_mem (l : List UInt8) (c : UInt8) (h : c ∉ l) : indexByte l c = none := by
  unfold indexByte
  rw [if_neg]
  rw [List.indexOf_lt_length]
  exact h

theorem indexByte_append (l r : List UInt8) (c : UInt8) (h : c ∉ l) :
    indexByte (l ++ c :: r) c = some l.length := by
  unfold indexByte
  rw [List.indexOf_append_of_not_mem h, List.indexOf_cons_self]
  simp

theorem head?_ne_of_not_mem (l : List UInt8) (c : UInt8) (h : c ∉ l) : l.head? ≠ some c := by
  intro e
  exact h (List.mem_of_mem_head? e)

theorem head?_append_cons_ne (l r : List UInt8) (c d : UInt8) (h : d ∉ l) (hcd : c ≠ d) :
    (l ++ c :: r).head? ≠ some d := by
  cases l with
  | nil => simpa using hcd
  | cons b l =>
    simp only [List.mem_cons, not_or] at h
    simpa using fun e => h.1 e.symm

theorem rowText_cons_cons (f g : GoString) (gs : List GoString) :
    rowText (f :: g :: gs) = f ++ semicolon :: rowText (g :: gs) := by
  simp [rowText, stringsJoin, List.intercalate, List.intersperse]

theorem rowText_singleton (f : GoString) : rowText [f] = f := by
  simp [rowText, stringsJoin, List.intercalate, List.intersperse]

theorem lengthNL_concat_nl (l : List UInt8) : lengthNL (l ++ [nl]) = 1 := by
  simp [lengthNL]

theorem lengthNL_of_not_mem (l : List UInt8) (h : nl ∉ l) : lengthNL l = 0 := by
  simp [lengthNL, getLast?_ne_of_not_mem l nl h]

/-- On the text of clean fields, followed by the line end, the field loop returns the fields. -/
theorem parseFields_rowText (tail rest : List UInt8) (htail : tail = [] ∨ tail = [nl]) :
    ∀ (fs : List GoString), fs ≠ [] → (∀ f ∈ fs, cleanField f) →
      ∀ (fuel : Nat), fs.length ≤ fuel → ∀ (acc : List GoString) (cur : GoString),
        parseFields fuel false (rowText fs ++ tail) rest acc cur = (acc ++ fs, none, rest) := by
  intro fs
  induction fs with
  | nil => intro h; exact absurd rfl h
  | cons f gs ih =>
    intro _ hclean fuel hfuel acc cur
    obtain ⟨hsemi, hquote, _, hnl⟩ := hclean f (List.mem_cons_self _ _)
    cases fuel with
    | zero => simp at hfuel
    | succ fuel =>
      cases gs with
      | nil =>
        rw [rowText_singleton]
        have hhead : (f ++ tail).head? ≠ some quote := by
          rcases htail with rfl | rfl
          · simpa using head?_ne_of_not_mem f quote hquote
          · apply head?_ne_of_not_mem
            simp [hquote]; decide
        have hidx : indexByte (f ++ tail) semicolon = none := by
          apply indexByte_of_not_mem
          rcases htail with rfl | rfl
          · simpa using hsemi
          · simp [hsemi]; decide
        have htake : (f ++ tail).take ((f ++ tail).length - lengthNL (f ++ tail)) = f := by
          rcases htail with rfl | rfl
          · simp [lengthNL_of_not_mem f hnl]
          · rw [lengthNL_concat_nl]; simp
        simp only [parseFields, hhead, ne_eq, not_false_eq_true, if_true, hidx, htake, hquote,
          if_false]
      | cons g gs =>
        rw [rowText_cons_cons, List.append_assoc, List.cons_append]
        have hhead : (f ++ semicolon :: (rowText (g :: gs) ++ tail)).head? ≠ some quote :=
          head?_append_cons_ne f _ semicolon quote hquote (by decide)
        have hidx : indexByte (f ++ semicolon :: (rowText (g :: gs) ++ tail)) semicolon =
            some f.length := indexByte_append f _ semicolon hsemi
        have hrec := ih (List.cons_ne_nil _ _)
          (fun x hx => hclean x (List.mem_cons_of_mem _ hx)) fuel
          (by simp only [List.length_cons] at hfuel ⊢; omega) (acc ++ [f]) []
        have hdrop : (f ++ semicolon :: (rowText (g :: gs) ++ tail)).drop (f.length + 1) =
            rowText (g :: gs) ++ tail := by
          rw [← List.drop_drop, List.drop_left]; rfl
        simp only [parseFields, hhead, ne_eq, not_false_eq_true, if_true, hidx, List.take_left,
          hquote, if_false, hdrop, hrec, List.append_assoc, List.singleton_append]

theorem rowText_not_mem (c : UInt8) (hc : c ≠ semicolon) :
    ∀ (fs : List GoString), (∀ f ∈ fs, c ∉ f) → c ∉ rowText fs := by
  intro fs
  induction fs with
  | nil => intro _; simp [rowText, stringsJoin, List.intercalate]
  | cons f gs ih =>
    intro h
    cases gs with
    | nil => rw [rowText_singleton]; exact h f (List.mem_cons_self _ _)
    | cons g gs =>
      rw [rowText_cons_cons]
      intro hm
      rcases List.mem_append.mp hm with h1 | h1
      · exact h f (List.mem_cons_self _ _) h1
      · rcases List.mem_cons.mp h1 with h2 | h2
        · exact hc h2
        · exact ih (fun x hx => h x (List.mem_cons_of_mem _ hx)) h2

theorem length_le_rowText (fs : List GoString) : fs.length ≤ (rowText fs).length + 1 := by
  induction fs with
  | nil => simp
  | cons f gs ih =>
    cases gs with
    | nil => simp
    | cons g gs =>
      rw [rowText_cons_cons]
      simp only [List.length_cons, List.length_append] at ih ⊢
      omega

theorem Read_aux (fs : List GoString) (line rest : List UInt8) (k : Nat) (input : List UInt8)
    (hline : line ≠ [] ∧ line.length ≠ lengthNL line)
    (hread : readLine input = (line, false, rest))
    (hparse : parseFields (line.length + rest.length + 1) false line rest [] [] =
      (fs, none, rest)) :
    Reader.Read ⟨input, k⟩ = readOutcome fs k rest := by
  have hnext : nextLine (input.length + 1) input = (line, false, rest) := by
    simp [nextLine, hread, hline.2]
  unfold Reader.Read readOutcome
  simp only [hnext, hparse]
  by_cases hk : 0 < k
  · by_cases hlen : fs.length = k
    · simp [hk, hlen]
    · simp [hk, hlen]
  · simp [hk]

theorem Read_row_nl (fs : List GoString) (rest : List UInt8) (k : Nat)
    (hclean : ∀ f ∈ fs, cleanField f) (hne : rowText fs ≠ []) :
    Reader.Read ⟨rowText fs ++ nl :: rest, k⟩ = readOutcome fs k rest := by
  have hfs : fs ≠ [] := by
    rintro rfl; exact hne rfl
  have hnl : nl ∉ rowText fs := rowText_not_mem nl (by decide) fs (fun f hf => (hclean f hf).2.2.2)
  have hcr : cr ∉ rowText fs := rowText_not_mem cr (by decide) fs (fun f hf => (hclean f hf).2.2.1)
  have hpos : 0 < (rowText fs).length := List.length_pos.mpr hne
  refine Read_aux fs (rowText fs ++ [nl]) rest k _ ⟨by simp, ?_⟩
    (readLine_append_nl _ rest hnl hcr) ?_
  · rw [lengthNL_concat_nl, List.length_append, List.length_singleton]; omega
  · exact parseFields_rowText [nl] rest (Or.inr rfl) fs hfs hclean _
      (by have := length_le_rowText fs; simp; omega) [] []

theorem Read_row_last (fs : List GoString) (k : Nat)
    (hclean : ∀ f ∈ fs, cleanField f) (hne : rowText fs ≠ []) :
    Reader.Read ⟨rowText fs, k⟩ = readOutcome fs k [] := by
  have hfs : fs ≠ [] := by
    rintro rfl; exact hne rfl
  have hnl : nl ∉ rowText fs := rowText_not_mem nl (by decide) fs (fun f hf => (hclean f hf).2.2.2)
  have hcr : cr ∉ rowText fs := rowText_not_mem cr (by decide) fs (fun f hf => (hclean f hf).2.2.1)
  have hpos : 0 < (rowText fs).length := List.length_pos.mpr hne
  refine Read_aux fs (rowText fs) [] k _ ⟨hne, ?_⟩ (readLine_of_not_mem _ hne hnl hcr) ?_
  · rw [lengthNL_of_not_mem _ hnl]; omega
  · have h := parseFields_rowText [] [] (Or.inl rfl) fs hfs hclean
      ((rowText fs).length + ([] : List UInt8).length + 1)
      (by have := length_le_rowText fs; simp; omega) [] []
    simpa using h

theorem Read_nil (k : Nat) : (Reader.Read ⟨[], k⟩).1 = ([], some .EOF) := by
  rfl

theorem length_eq_twelve (fs : List GoString) (h : fs.length = 12) :
    ∃ f0 f1 f2 f3 f4 f5 f6 f7 f8 f9 f10 f11 : GoString,
      fs = [f0, f1, f2, f3, f4, f5, f6, f7, f8, f9, f10, f11] := by
  match fs, h with
  | [f0, f1, f2, f3, f4, f5, f6, f7, f8, f9, f10, f11], _ =>
    exact ⟨f0, f1, f2, f3, f4, f5, f6, f7, f8, f9, f10, f11, rfl⟩

/-- On a record of 12 fields whose first field has at least 2 bytes, the loop body returns
the `Call` of the row. -/
theorem decodeLine_of_twelve (client : Client) (fs : List GoString) (hlen : fs.length = 12)
    (h0 : 2 ≤ (fs.headD []).length) : client.decodeLine fs = .ret (rowCall fs) := by
  obtain ⟨f0, f1, f2, f3, f4, f5, f6, f7, f8, f9, f10, f11, rfl⟩ := length_eq_twelve fs hlen
  have hs := stringToSlice_of_two_le client f0 h0
  simp [Client.decodeLine, index, hs, rowCall, statsFieldRecords, statsFieldStart,
    statsFieldFinish, statsFieldAnswer, statsFieldFromExtension, statsFieldFromNumber,
    statsFieldToExtension, statsFieldToNumber, statsFieldDisconnectReason, statsFieldLineNumber,
    statsFieldLocation, statsFieldEntryId]

theorem rowText_ne_nil (fs : List GoString) (h : wellFormedRow fs) : rowText fs ≠ [] := by
  obtain ⟨f0, f1, f2, f3, f4, f5, f6, f7, f8, f9, f10, f11, rfl⟩ := length_eq_twelve fs h.1
  rw [rowText_cons_cons]
  intro e
  have := congrArg List.length e
  simp at this

theorem readOutcome_wellFormed (fs : List GoString) (h : wellFormedRow fs) (k : Nat)
    (hk : k = 0 ∨ k = 12) (rest : List UInt8) :
    readOutcome fs k rest = ((fs, none), ⟨rest, 12⟩) := by
  rcases hk with rfl | rfl <;> simp [readOutcome, h.1]


/-- The text after the newline-terminated rows: nothing, or a last row without newline. -/
theorem statsUnmarshalLoop_end (client : Client) (fuel k : Nat) (calls : List Call) :
    client.statsUnmarshalLoop (fuel + 1) ⟨[], k⟩ calls = .ret (calls, none) := by
  simp [Client.statsUnmarshalLoop, Reader.Read, nextLine, readLine, readSlice]

theorem statsUnmarshalLoop_last (client : Client) (fs : List GoString) (h : wellFormedRow fs)
    (fuel k : Nat) (hk : k = 0 ∨ k = 12) (calls : List Call) :
    client.statsUnmarshalLoop (fuel + 2) ⟨rowText fs, k⟩ calls =
      .ret (calls ++ [rowCall fs], none) := by
  rw [Client.statsUnmarshalLoop, Read_row_last fs k h.2.1 (rowText_ne_nil fs h),
    readOutcome_wellFormed fs h k hk]
  simp only [decodeLine_of_twelve client fs h.1 h.2.2]
  exact statsUnmarshalLoop_end client fuel 12 _

theorem statsUnmarshalLoop_rows (client : Client) (tail : List UInt8) :
    ∀ (rows : List (List GoString)), (∀ fs ∈ rows, wellFormedRow fs) →
      ∀ (fuel k : Nat), k = 0 ∨ k = 12 → ∀ (calls : List Call),
        client.statsUnmarshalLoop (fuel + rows.length) ⟨bodyOfRows rows ++ tail, k⟩ calls =
          client.statsUnmarshalLoop fuel ⟨tail, if rows = [] then k else 12⟩
            (calls ++ rows.map rowCall) := by
  intro rows
  induction rows with
  | nil => intro _ fuel k _ calls; simp [bodyOfRows]
  | cons fs rows ih =>
    intro hwf fuel k hk calls
    have h := hwf fs (List.mem_cons_self _ _)
    have hbody : bodyOfRows (fs :: rows) ++ tail =
        rowText fs ++ nl :: (bodyOfRows rows ++ tail) := by
      simp [bodyOfRows]
    rw [hbody, List.length_cons, ← Nat.add_assoc, Client.statsUnmarshalLoop,
      Read_row_nl fs _ k h.2.1 (rowText_ne_nil fs h), readOutcome_wellFormed fs h k hk]
    simp only [decodeLine_of_twelve client fs h.1 h.2.2]
    rw [ih (fun x hx => hwf x (List.mem_cons_of_mem _ hx)) fuel 12 (Or.inr rfl)]
    simp

theorem length_le_bodyOfRows (rows : List (List GoString)) :
    rows.length ≤ (bodyOfRows rows).length := by
  induction rows with
  | nil => simp
  | cons fs rows ih =>
    simp only [bodyOfRows, List.flatMap_cons, List.length_append, List.length_cons,
      List.length_nil] at ih ⊢
    omega

theorem statsUnmarshal_bodyOfRows (client : Client) (rows : List (List GoString))
    (hwf : ∀ fs ∈ rows, wellFormedRow fs) :
    client.statsUnmarshal (bodyOfRows rows) = .ret (rows.map rowCall, none) := by
  obtain ⟨d, hd⟩ := Nat.exists_eq_add_of_le (length_le_bodyOfRows rows)
  have h := statsUnmarshalLoop_rows client [] rows hwf (d + 1) 0 (Or.inl rfl) []
  rw [List.append_nil] at h
  unfold Client.statsUnmarshal NewReader
  rw [hd, show rows.length + d + 1 = d + 1 + rows.length by omega, h]
  simpa using statsUnmarshalLoop_end client d _ _

theorem statsUnmarshal_bodyOfRows_last (client : Client) (rows : List (List GoString))
    (fs : List GoString) (hwf : ∀ r ∈ rows, wellFormedRow r) (h : wellFormedRow fs) :
    client.statsUnmarshal (bodyOfRows rows ++ rowText fs) =
      .ret (rows.map rowCall ++ [rowCall fs], none) := by
  have hpos : 0 < (rowText fs).length := List.length_pos.mpr (rowText_ne_nil fs h)
  have hle := length_le_bodyOfRows rows
  obtain ⟨d, hd⟩ := Nat.exists_eq_add_of_le
    (show rows.length + 1 ≤ (bodyOfRows rows ++ rowText fs).length by
      rw [List.length_append]; omega)
  have hloop := statsUnmarshalLoop_rows client (rowText fs) rows hwf (d + 2) 0 (Or.inl rfl) []
  unfold Client.statsUnmarshal NewReader
  rw [hd, show rows.length + 1 + d + 1 = d + 2 + rows.length by omega, hloop]
  have hk : (if rows = [] then 0 else 12) = 0 ∨ (if rows = [] then 0 else 12) = 12 := by
    by_cases hr : rows = [] <;> simp [hr]
  simpa using statsUnmarshalLoop_last client fs h d _ hk _

/-! ### The fuel of the loops is never used up -/

theorem readSlice_append (input : List UInt8) :
    (readSlice input).1 ++ (readSlice input).2.2 = input := by
  induction input with
  | nil => rfl
  | cons b bs ih =>
    unfold readSlice
    by_cases hb : b = nl
    · simp [hb]
    · simp [hb, ih]

theorem readSlice_eof (input : List UInt8) :
    ((readSlice input).2.1 = true → (readSlice input).2.2 = []) ∧
    ((readSlice input).1 = [] → input = []) := by
  induction input with
  | nil => exact ⟨fun _ => rfl, fun _ => rfl⟩
  | cons b bs ih =>
    unfold readSlice
    by_cases hb : b = nl
    · simp [hb]
    · simpa [hb] using ih.1

theorem readLine_rest (input : List UInt8) : (readLine input).2.2 = (readSlice input).2.2 := rfl

theorem readLine_length (input : List UInt8) :
    (readLine input).1.length + (readLine input).2.2.length ≤ input.length := by
  have h := congrArg List.length (readSlice_append input)
  rw [List.length_append] at h
  have h1 : (readLine input).1.length ≤ (readSlice input).1.length := by
    unfold readLine
    simp only
    split_ifs <;> simp <;> omega
  rw [readLine_rest]
  omega

theorem readLine_lt (input : List UInt8) (h : (readLine input).2.1 = false) :
    (readLine input).2.2.length < input.length := by
  have happ := congrArg List.length (readSlice_append input)
  rw [List.length_append] at happ
  have hne : (readSlice input).1 ≠ [] := by
    intro e
    have hnil := (readSlice_eof input).2 e
    subst hnil
    revert h
    decide
  have hpos := List.length_pos.mpr hne
  rw [readLine_rest]
  omega

theorem nextLine_fuel (fuel1 : Nat) :
    ∀ (fuel2 : Nat) (input : List UInt8), input.length < fuel1 → input.length < fuel2 →
      nextLine fuel1 input = nextLine fuel2 input := by
  induction fuel1 with
  | zero => intro _ _ h; omega
  | succ fuel1 ih =>
    intro fuel2 input h1 h2
    cases fuel2 with
    | zero => omega
    | succ fuel2 =>
      unfold nextLine
      by_cases hskip : ¬ (readLine input).2.1 = true ∧
          (readLine input).1.length = lengthNL (readLine input).1
      · have hlt := readLine_lt input (by simpa using hskip.1)
        simp only [if_pos hskip]
        exact ih fuel2 _ (by omega) (by omega)
      · simp only [if_neg hskip]

theorem nextLine_length (fuel : Nat) :
    ∀ (input : List UInt8),
      (nextLine fuel input).1.length + (nextLine fuel input).2.2.length ≤ input.length ∧
      ((nextLine fuel input).2.1 = false →
        (nextLine fuel input).2.2.length < input.length) := by
  induction fuel with
  | zero => intro input; simp [nextLine]
  | succ fuel ih =>
    intro input
    unfold nextLine
    by_cases hskip : ¬ (readLine input).2.1 = true ∧
        (readLine input).1.length = lengthNL (readLine input).1
    · have hlt := readLine_lt input (by simpa using hskip.1)
      simp only [if_pos hskip]
      have := ih (readLine input).2.2
      exact ⟨by omega, fun h => by have := this.2 h; omega⟩
    · simp only [if_neg hskip]
      exact ⟨readLine_length input, readLine_lt input⟩

theorem indexByte_lt (line : List UInt8) (c : UInt8) (i : Nat) (h : indexByte line c = some i) :
    i < line.length := by
  unfold indexByte at h
  split_ifs at h with hlt
  cases h
  exact hlt

theorem length_pos_of_head? (line : List UInt8) (c : UInt8) (h : line.head? = some c) :
    0 < line.length := by
  cases line with
  | nil => simp at h
  | cons b l => simp

theorem parseFields_fuel (fuel1 : Nat) :
    ∀ (fuel2 : Nat) (inQuote : Bool) (line rest : List UInt8) (fields : List GoString)
      (cur : GoString), line.length + rest.length < fuel1 → line.length + rest.length < fuel2 →
      parseFields fuel1 inQuote line rest fields cur =
        parseFields fuel2 inQuote line rest fields cur := by
  induction fuel1 with
  | zero => intro _ _ _ _ _ _ h; omega
  | succ fuel1 ih =>
    intro fuel2 inQuote line rest fields cur h1 h2
    cases fuel2 with
    | zero => omega
    | succ fuel2 =>
      cases inQuote with
      | false =>
        simp only [parseFields]
        by_cases hq : line.head? = some quote
        · have hpos := length_pos_of_head? line quote hq
          simp only [hq, ne_eq, not_true_eq_false, if_false]
          exact ih fuel2 _ _ _ _ _ (by simp only [List.length_drop]; omega)
            (by simp only [List.length_drop]; omega)
        · simp only [ne_eq, hq, not_false_eq_true, if_true]
          cases hidx : indexByte line semicolon with
          | none => rfl
          | some i =>
            have hi := indexByte_lt line semicolon i hidx
            simp only
            split_ifs
            · rfl
            · exact ih fuel2 _ _ _ _ _ (by simp only [List.length_drop]; omega)
                (by simp only [List.length_drop]; omega)
      | true =>
        simp only [parseFields]
        cases hidx : indexByte line quote with
        | none =>
          simp only
          split_ifs with hlen
          · have hr := readLine_length rest
            exact ih fuel2 _ _ _ _ _ (by omega) (by omega)
          · rfl
        | some i =>
          have hi := indexByte_lt line quote i hidx
          simp only
          split_ifs with hq1 hq2
          · have hpos := length_pos_of_head? _ quote hq1
            exact ih fuel2 _ _ _ _ _ (by simp only [List.length_drop] at hpos ⊢; omega)
              (by simp only [List.length_drop] at hpos ⊢; omega)
          · have hpos := length_pos_of_head? _ semicolon hq2
            exact ih fuel2 _ _ _ _ _ (by simp only [List.length_drop] at hpos ⊢; omega)
              (by simp only [List.length_drop] at hpos ⊢; omega)
          · rfl
          · rfl

theorem parseFields_rest_length (fuel : Nat) :
    ∀ (inQuote : Bool) (line rest : List UInt8) (fields : List GoString) (cur : GoString),
      (parseFields fuel inQuote line rest fields cur).2.2.length ≤ rest.length := by
  induction fuel with
  | zero => intro _ _ _ _ _; simp [parseFields]
  | succ fuel ih =>
    intro inQuote line rest fields cur
    cases inQuote with
    | false =>
      simp only [parseFields]
      by_cases hq : line.head? = some quote
      · simp only [hq, ne_eq, not_true_eq_false, if_false]
        exact ih _ _ _ _ _
      · simp only [ne_eq, hq, not_false_eq_true, if_true]
        cases hidx : indexByte line semicolon with
        | none =>
          simp only
          split_ifs <;> exact Nat.le_refl _
        | some i =>
          simp only
          split_ifs
          · exact Nat.le_refl _
          · exact ih _ _ _ _ _
    | true =>
      simp only [parseFields]
      cases hidx : indexByte line quote with
      | none =>
        simp only
        split_ifs
        · have hr := readLine_length rest
          have := ih true (readLine rest).1 (readLine rest).2.2 fields (cur ++ line)
          omega
        · exact Nat.le_refl _
      | some i =>
        simp only
        split_ifs
        · exact ih _ _ _ _ _
        · exact ih _ _ _ _ _
        · exact Nat.le_refl _
        · exact Nat.le_refl _

theorem Read_length (r : Reader) :
    (Reader.Read r).2.input.length ≤ r.input.length ∧
    ((Reader.Read r).1.2 = none → (Reader.Read r).2.input.length < r.input.length) := by
  have hn := nextLine_length (r.input.length + 1) r.input
  have hp := parseFields_rest_length
    ((nextLine (r.input.length + 1) r.input).1.length +
      (nextLine (r.input.length + 1) r.input).2.2.length + 1) false
    (nextLine (r.input.length + 1) r.input).1 (nextLine (r.input.length + 1) r.input).2.2 [] []
  unfold Reader.Read
  simp only
  by_cases heof : (nextLine (r.input.length + 1) r.input).2.1 = true
  · simp only [heof, if_true]
    exact ⟨by omega, fun h => by simp at h⟩
  · have hlt := hn.2 (by simpa using heof)
    simp only [heof, Bool.false_eq_true, if_false]
    split_ifs <;> exact ⟨by simp only; omega, fun _ => by simp only; omega⟩

theorem statsUnmarshalLoop_fuel (client : Client) (fuel1 : Nat) :
    ∀ (fuel2 : Nat) (reader : Reader) (calls : List Call),
      reader.input.length < fuel1 → reader.input.length < fuel2 →
      client.statsUnmarshalLoop fuel1 reader calls =
        client.statsUnmarshalLoop fuel2 reader calls := by
  induction fuel1 with
  | zero => intro _ _ _ h; omega
  | succ fuel1 ih =>
    intro fuel2 reader calls h1 h2
    cases fuel2 with
    | zero => omega
    | succ fuel2 =>
      have hlen := Read_length reader
      rcases hread : reader.Read with ⟨⟨line, err⟩, reader1⟩
      rw [hread] at hlen
      simp only [Client.statsUnmarshalLoop, hread]
      cases err with
      | some e => cases e <;> rfl
      | none =>
        have hlt := hlen.2 rfl
        simp only at hlt ⊢
        cases client.decodeLine line with
        | panics p => rfl
        | ret call => exact ih fuel2 reader1 _ (by omega) (by omega)

/-- The fuel `len(body) + 1` of `statsUnmarshal` is never used up: any larger fuel gives the
same result. -/
theorem statsUnmarshal_fuel (client : Client) (body : List UInt8) (fuel : Nat)
    (h : body.length < fuel) :
    client.statsUnmarshalLoop fuel (NewReader body) [] = client.statsUnmarshal body :=
  statsUnmarshalLoop_fuel client fuel (body.length + 1) (NewReader body) [] h
    (Nat.lt_succ_self _)

/-- The fuels of `Reader.Read` are never used up: any larger fuels give the same lines and
the same fields. -/
theorem Read_fuel (input : List UInt8) (fuel1 fuel2 : Nat) (h1 : input.length < fuel1)
    (h2 : (nextLine fuel1 input).1.length + (nextLine fuel1 input).2.2.length < fuel2) :
    nextLine fuel1 input = nextLine (input.length + 1) input ∧
    parseFields fuel2 false (nextLine fuel1 input).1 (nextLine fuel1 input).2.2 [] [] =
      parseFields ((nextLine fuel1 input).1.length + (nextLine fuel1 input).2.2.length + 1)
        false (nextLine fuel1 input).1 (nextLine fuel1 input).2.2 [] [] :=
  ⟨nextLine_fuel fuel1 _ input h1 (Nat.lt_succ_self _),
    parseFields_fuel fuel2 _ false _ _ [] [] h2 (Nat.lt_succ_self _)⟩

/-! ### The `%d` verb -/

theorem decimalDigits_eq (fuel : Nat) :
    ∀ (n : Nat) (acc : GoString), 0 < n → n < fuel →
      decimalDigits fuel n acc =
        ((Nat.digits 10 n).reverse.map (fun d => UInt8.ofNat (48 + d))) ++ acc := by
  induction fuel with
  | zero => intro n _ _ h; omega
  | succ fuel ih =>
    intro n acc hpos hlt
    rw [Nat.digits_def' (by decide) hpos]
    unfold decimalDigits
    by_cases h10 : n / 10 = 0
    · simp [h10]
    · simp only [h10, if_false]
      rw [ih (n / 10) _ (Nat.pos_of_ne_zero h10) (by omega)]
      simp

/-- The `%d` rendering of a positive integer is its list of decimal digits, most significant
first, in ASCII; the fuel of `decimalDigits` is never used up. -/
theorem fmtInt_pos (n : Nat) (h : 0 < n) :
    fmtInt (n : Int) = (Nat.digits 10 n).reverse.map (fun d => UInt8.ofNat (48 + d)) := by
  have hneg : ¬ ((n : Int) < 0) := by omega
  unfold fmtInt
  rw [if_neg hneg, Int.natAbs_ofNat, decimalDigits_eq (n + 1) n [] h (Nat.lt_succ_self _),
    List.append_nil]

/-! ### Decoding after a prefix of well-formed rows -/

theorem statsUnmarshal_after_rows (client : Client) (rows : List (List GoString))
    (hwf : ∀ fs ∈ rows, wellFormedRow fs) (tail : List UInt8) :
    client.statsUnmarshal (bodyOfRows rows ++ tail) =
      client.statsUnmarshalLoop (tail.length + 1) ⟨tail, if rows = [] then 0 else 12⟩
        (rows.map rowCall) := by
  have h1 := statsUnmarshalLoop_fuel client ((bodyOfRows rows ++ tail).length + 1)
    ((bodyOfRows rows ++ tail).length + 1 + rows.length) (NewReader (bodyOfRows rows ++ tail)) []
    (by simp [NewReader]) (by simp only [NewReader]; omega)
  have h2 := statsUnmarshalLoop_rows client tail rows hwf
    ((bodyOfRows rows ++ tail).length + 1) 0 (Or.inl rfl) []
  have h3 := statsUnmarshalLoop_fuel client ((bodyOfRows rows ++ tail).length + 1)
    (tail.length + 1) ⟨tail, if rows = [] then 0 else 12⟩ ([] ++ rows.map rowCall)
    (by simp only [List.length_append]; omega) (Nat.lt_succ_self _)
  unfold Client.statsUnmarshal
  rw [h1]
  unfold NewReader
  rw [h2, h3, List.nil_append]

theorem expected_fields (rows : List (List GoString)) :
    (if rows = [] then 0 else 12) = 0 ∨ (if rows = [] then 0 else 12) = 12 := by
  by_cases hr : rows = [] <;> simp [hr]

theorem statsUnmarshalLoop_read_error (client : Client) (fuel : Nat) (reader reader1 : Reader)
    (calls : List Call) (line : List GoString) (e : CsvError) (he : e ≠ .EOF)
    (hread : reader.Read = ((line, some e), reader1)) :
    client.statsUnmarshalLoop (fuel + 1) reader calls =
      .ret (calls, some (utf8 "error read CSV")) := by
  cases e with
  | EOF => exact absurd rfl he
  | ErrBareQuote => simp only [Client.statsUnmarshalLoop, hread]
  | ErrQuote => simp only [Client.statsUnmarshalLoop, hread]
  | ErrFieldCount => simp only [Client.statsUnmarshalLoop, hread]

theorem statsUnmarshalLoop_panics (client : Client) (fuel : Nat) (reader reader1 : Reader)
    (calls : List Call) (line : List GoString) (p : Panic)
    (hread : reader.Read = ((line, none), reader1)) (hp : client.decodeLine line = .panics p) :
    client.statsUnmarshalLoop (fuel + 1) reader calls = .panics p := by
  simp only [Client.statsUnmarshalLoop, hread, hp]

theorem stringToSlice_short (client : Client) (s : GoString) (h : s.length < 2) :
    client.stringToSlice s = .panics .sliceBoundsOutOfRange := by
  match s, h with
  | [], _ => rfl
  | [_], _ => rfl

theorem decodeLine_short_first (client : Client) (f0 : GoString) (rest : List GoString)
    (h : f0.length < 2) : client.decodeLine (f0 :: rest) = .panics .sliceBoundsOutOfRange := by
  have hs := stringToSlice_short client f0 h
  simp [Client.decodeLine, index, statsFieldRecords, hs]

theorem rowText_ne_nil_of_twelve (fs : List GoString) (h : fs.length = 12) : rowText fs ≠ [] := by
  obtain ⟨f0, f1, f2, f3, f4, f5, f6, f7, f8, f9, f10, f11, rfl⟩ := length_eq_twelve fs h
  rw [rowText_cons_cons]
  intro e
  have := congrArg List.length e
  simp at this

theorem readOutcome_twelve (fs : List GoString) (h : fs.length = 12) (k : Nat)
    (hk : k = 0 ∨ k = 12) (rest : List UInt8) :
    readOutcome fs k rest = ((fs, none), ⟨rest, 12⟩) := by
  rcases hk with rfl | rfl <;> simp [readOutcome, h]

/-! ### The values of `ParseInt` -/

theorem ParseInt_range (s : GoString) :
    -9223372036854775808 ≤ (ParseInt s 64).1 ∧ (ParseInt s 64).1 ≤ 9223372036854775807 := by
  unfold ParseInt
  cases s with
  | nil => simp
  | cons c cs =>
    simp only
    split
    · simp
    · by_cases hneg : c = 45
      · simp only [hneg, not_true_eq_false, false_and, if_false, true_and, if_true]
        split_ifs <;> first | (norm_num at *; done) | (norm_num at *; omega)
      · simp only [hneg, not_false_eq_true, true_and, false_and, if_false]
        split_ifs <;> first | (norm_num at *; done) | (norm_num at *; omega)

theorem ParseInt_error_value (s : GoString) :
    ((ParseInt s 64).2 = some .notANumber → (ParseInt s 64).1 = 0) ∧
    ((ParseInt s 64).2 = some .outOfRange →
      (ParseInt s 64).1 = if s.head? = some 45 then -9223372036854775808
        else 9223372036854775807) := by
  unfold ParseInt
  cases s with
  | nil => simp
  | cons c cs =>
    simp only
    split
    · simp
    · split_ifs <;> simp_all

/-! ### What the loop body puts into a call -/

theorem Run.bind_eq_ret {α β : Type} (x : Run α) (f : α → Run β) (b : β)
    (h : (x >>= f) = Run.ret b) : ∃ a, x = Run.ret a ∧ f a = Run.ret b := by
  cases x with
  | ret a => exact ⟨a, rfl, h⟩
  | panics p => cases h

theorem decodeLine_timestamps (client : Client) (line : List GoString) (c : Call)
    (h : client.decodeLine line = .ret c) :
    ∃ f1 f2 f3 : GoString, c.Start = (ParseInt f1 64).1 ∧ c.Finish = (ParseInt f2 64).1 ∧
      c.Answer = (ParseInt f3 64).1 := by
  unfold Client.decodeLine at h
  obtain ⟨record, _, h⟩ := Run.bind_eq_ret _ _ _ h
  obtain ⟨start, hstart, h⟩ := Run.bind_eq_ret _ _ _ h
  obtain ⟨finish, hfinish, h⟩ := Run.bind_eq_ret _ _ _ h
  obtain ⟨answer, hanswer, h⟩ := Run.bind_eq_ret _ _ _ h
  obtain ⟨disconnectReason, _, h⟩ := Run.bind_eq_ret _ _ _ h
  obtain ⟨fromExtension, _, h⟩ := Run.bind_eq_ret _ _ _ h
  obtain ⟨fromNumber, _, h⟩ := Run.bind_eq_ret _ _ _ h
  obtain ⟨toExtension, _, h⟩ := Run.bind_eq_ret _ _ _ h
  obtain ⟨toNumber, _, h⟩ := Run.bind_eq_ret _ _ _ h
  obtain ⟨lineNumber, _, h⟩ := Run.bind_eq_ret _ _ _ h
  obtain ⟨location, _, h⟩ := Run.bind_eq_ret _ _ _ h
  obtain ⟨entryId, _, h⟩ := Run.bind_eq_ret _ _ _ h
  obtain ⟨f1, _, h1⟩ := Run.bind_eq_ret _ _ _ hstart
  obtain ⟨f2, _, h2⟩ := Run.bind_eq_ret _ _ _ hfinish
  obtain ⟨f3, _, h3⟩ := Run.bind_eq_ret _ _ _ hanswer
  cases h
  cases h1
  cases h2
  cases h3
  exact ⟨f1, f2, f3, rfl, rfl, rfl⟩

theorem statsUnmarshalLoop_invariant (client : Client) (P : Call → Prop)
    (hP : ∀ line c, client.decodeLine line = .ret c → P c) (fuel : Nat) :
    ∀ (reader : Reader) (calls0 calls : List Call) (err : GoError),
      (∀ c ∈ calls0, P c) → client.statsUnmarshalLoop fuel reader calls0 = .ret (calls, err) →
      ∀ c ∈ calls, P c := by
  induction fuel with
  | zero =>
    intro reader calls0 calls err h0 h
    simp only [Client.statsUnmarshalLoop] at h
    cases h
    exact h0
  | succ fuel ih =>
    intro reader calls0 calls err h0 h
    rcases hread : reader.Read with ⟨⟨line, e⟩, reader1⟩
    cases e with
    | some e =>
      cases e <;> simp only [Client.statsUnmarshalLoop, hread] at h <;> cases h <;> exact h0
    | none =>
      simp only [Client.statsUnmarshalLoop, hread] at h
      cases hd : client.decodeLine line with
      | panics p => rw [hd] at h; cases h
      | ret call =>
        rw [hd] at h
        refine ih reader1 (calls0 ++ [call]) calls err ?_ h
        intro c hc
        rcases List.mem_append.mp hc with hc | hc
        · exact h0 c hc
        · rw [List.mem_singleton] at hc
          subst hc
          exact hP line c hd

/-! ## The SHA-256 digest and `sign` -/

theorem sha256Round_length (s : List Nat) (kw : Nat × Nat) :
    (sha256Round s kw).length = s.length := by
  unfold sha256Round
  split <;> simp

theorem foldl_sha256Round_length (l : List (Nat × Nat)) (s : List Nat) :
    (l.foldl sha256Round s).length = s.length := by
  induction l generalizing s with
  | nil => rfl
  | cons kw l ih => rw [List.foldl_cons, ih, sha256Round_length]

theorem sha256Compress_length (h b : List Nat) : (sha256Compress h b).length = h.length := by
  simp [sha256Compress, foldl_sha256Round_length]

theorem foldl_sha256Compress_length (bs : List (List Nat)) (h : List Nat) :
    (bs.foldl sha256Compress h).length = h.length := by
  induction bs generalizing h with
  | nil => rfl
  | cons b bs ih => rw [List.foldl_cons, ih, sha256Compress_length]

theorem sha256Words_length (msg : List UInt8) : (sha256Words msg).length = 8 := by
  simp [sha256Words, foldl_sha256Compress_length, sha256Init]

theorem length_flatMap_const {α β : Type} (f : α → List β) (k : Nat) (hf : ∀ a, (f a).length = k)
    (l : List α) : (l.flatMap f).length = k * l.length := by
  induction l with
  | nil => simp
  | cons a l ih => simp [List.flatMap_cons, ih, hf, Nat.mul_succ, Nat.add_comm]

theorem Sum256_length (msg : List UInt8) : (Sum256 msg).length = 32 := by
  unfold Sum256
  refine (length_flatMap_const _ 4 ?_ _).trans ?_
  · intro _; rfl
  · rw [sha256Words_length]

theorem fmtHex_length (bs : List UInt8) : (fmtHex bs).length = 2 * bs.length := by
  unfold fmtHex
  refine length_flatMap_const _ 2 ?_ _
  intro _; rfl

/-- The lowercase hexadecimal digits `0-9a-f`. -/
theorem hexDigit_lower (n : Nat) (h : n < 16) :
    hexDigit n ∈ utf8 "0123456789abcdef" := by
  interval_cases n <;> decide

theorem fmtHex_lower (bs : List UInt8) : ∀ c ∈ fmtHex bs, c ∈ utf8 "0123456789abcdef" := by
  intro c hc
  simp only [fmtHex, List.mem_flatMap, List.mem_cons, List.mem_singleton, List.not_mem_nil,
    or_false] at hc
  obtain ⟨b, _, hb⟩ := hc
  have hb16 : b.toNat / 16 < 16 := by
    have := b.toNat_lt
    omega
  rcases hb with rfl | rfl
  · exact hexDigit_lower _ hb16
  · exact hexDigit_lower _ (Nat.mod_lt _ (by decide))

/-- C4: `sign` is the lowercase hexadecimal rendering, 64 characters long, of the SHA-256
digest of key ++ payload ++ salt; with empty credentials and payload `{}` it is
`44136fa3...caaff8a`. -/
theorem sign_sha256_hex :
    (∀ (k s p : GoString),
      Client.sign ⟨k, s⟩ p = fmtHex (Sum256 (k ++ p ++ s)) ∧
      (Client.sign ⟨k, s⟩ p).length = 64 ∧
      ∀ c ∈ Client.sign ⟨k, s⟩ p, c ∈ utf8 "0123456789abcdef") ∧
    Client.sign ⟨[], []⟩ (utf8 "{}") =
      utf8 "44136fa355b3678a1146ad16f7e8649e94fb4fc21fe77e8310c060f61caaff8a" := by
  refine ⟨fun k s p => ⟨rfl, ?_, ?_⟩, by decide⟩
  · simp [Client.sign, fmtHex_length, Sum256_length]
  · exact fmtHex_lower _

set_option maxRecDepth 100000 in
/-- Known answers of FIPS 180-4 for the embedded SHA-256: the empty message, `abc`, and the
two-block message of 56 bytes. -/
theorem Sum256_known_answers :
    fmtHex (Sum256 []) =
      utf8 "e3b0c44298fc1c149afbf4c8996fb92427ae41e4649b934ca495991b7852b855" ∧
    fmtHex (Sum256 (utf8 "abc")) =
      utf8 "ba7816bf8f01cfea414140de5dae2223b00361a396177a9cb410ff61f20015ad" ∧
    fmtHex (Sum256 (utf8 "abcdbcdecdefdefgefghfghighijhijkijkljklmklmnlmnomnopnopq")) =
      utf8 "248d6a61d20638b8e5c026930c3e6039a33ce45964ff2167f6ecedd419db06c1" := by
  refine ⟨by decide, by decide, by decide⟩

/-- C10: `formData(j)` has exactly the three fields `vpbx_api_key`, `sign` and `json`, each
with one value: the credential id, `sign(j)`, and `j` itself, the very string that was signed. -/
theorem formData_three_fields (client : Client) (j : GoString) :
    (client.formData j).length = 3 ∧
    (client.formData j).map Prod.fst = [utf8 "vpbx_api_key", utf8 "sign", utf8 "json"] ∧
    ((client.formData j).map Prod.fst).Nodup ∧
    Values.values (client.formData j) (utf8 "vpbx_api_key") = [[client.VpbxApiKey]] ∧
    Values.values (client.formData j) (utf8 "sign") = [[client.sign j]] ∧
    Values.values (client.formData j) (utf8 "json") = [[j]] ∧
    client.sign j = fmtHex (Sum256 (client.VpbxApiKey ++ j ++ client.VpbxApiSalt)) := by
  have h1 : utf8 "sign" ≠ utf8 "vpbx_api_key" := by decide
  have h2 : utf8 "json" ≠ utf8 "vpbx_api_key" := by decide
  have h3 : utf8 "vpbx_api_key" ≠ utf8 "sign" := by decide
  have h4 : utf8 "json" ≠ utf8 "sign" := by decide
  have h5 : utf8 "vpbx_api_key" ≠ utf8 "json" := by decide
  have h6 : utf8 "sign" ≠ utf8 "json" := by decide
  have hnodup : [utf8 "vpbx_api_key", utf8 "sign", utf8 "json"].Nodup := by decide
  refine ⟨rfl, rfl, hnodup, ?_, ?_, ?_, rfl⟩ <;>
    simp [Values.values, Client.formData, List.filter, h1, h2, h3, h4, h5, h6]

/-! ### The `%x` verb is injective -/

theorem hexDigit_injective : ∀ a b : Fin 16, hexDigit a.val = hexDigit b.val → a = b := by
  decide

theorem hexDigit_pair (b c : UInt8) (h1 : hexDigit (b.toNat / 16) = hexDigit (c.toNat / 16))
    (h2 : hexDigit (b.toNat % 16) = hexDigit (c.toNat % 16)) : b = c := by
  have hb := b.toNat_lt
  have hc := c.toNat_lt
  have e1 := hexDigit_injective ⟨b.toNat / 16, by omega⟩ ⟨c.toNat / 16, by omega⟩ h1
  have e2 := hexDigit_injective ⟨b.toNat % 16, by omega⟩ ⟨c.toNat % 16, by omega⟩ h2
  have e1v : b.toNat / 16 = c.toNat / 16 := congrArg Fin.val e1
  have e2v : b.toNat % 16 = c.toNat % 16 := congrArg Fin.val e2
  have hval : b.toNat = c.toNat := by omega
  exact UInt8.ext_iff.mpr hval

theorem fmtHex_injective : ∀ bs cs : List UInt8, fmtHex bs = fmtHex cs → bs = cs := by
  intro bs
  induction bs with
  | nil =>
    intro cs h
    cases cs with
    | nil => rfl
    | cons c cs => simp [fmtHex] at h
  | cons b bs ih =>
    intro cs h
    cases cs with
    | nil => simp [fmtHex] at h
    | cons c cs =>
      have h1 : hexDigit (b.toNat / 16) :: hexDigit (b.toNat % 16) :: fmtHex bs =
          hexDigit (c.toNat / 16) :: hexDigit (c.toNat % 16) :: fmtHex cs := by
        simpa [fmtHex] using h
      injection h1 with ha h1
      injection h1 with hb h1
      rw [hexDigit_pair b c ha hb, ih cs h1]

/-! ### The sign of a parsed timestamp -/

theorem ParseInt_sign (s : GoString) :
    (s.head? ≠ some 45 → 0 ≤ (ParseInt s 64).1) ∧
    (s.head? = some 45 → (ParseInt s 64).1 ≤ 0) := by
  unfold ParseInt
  cases s with
  | nil => simp
  | cons c cs =>
    simp only
    split
    · simp
    · by_cases hneg : c = 45
      · simp only [hneg, not_true_eq_false, false_and, if_false, true_and, if_true]
        split_ifs <;> norm_num at *
      · simp only [hneg, not_false_eq_true, true_and, false_and, if_false]
        split_ifs <;> first | (norm_num at *; omega) | simp [hneg]

theorem index_eq_ret {α : Type} (xs : List α) (i : Nat) (x d : α) (h : index xs i = .ret x) :
    xs.getD i d = x ∧ i < xs.length := by
  unfold index at h
  cases hx : xs.get? i with
  | none => rw [hx] at h; cases h
  | some y =>
    rw [hx] at h
    cases h
    rw [List.get?_eq_getElem?] at hx
    obtain ⟨hi, hy⟩ := List.getElem?_eq_some.mp hx
    exact ⟨by simp [List.getD, hx], hi⟩

/-- When the loop body returns a call, the record has at least 12 fields and the timestamps
are `ParseInt` of its fields 1, 2 and 3. -/
theorem decodeLine_fields (client : Client) (line : List GoString) (c : Call)
    (h : client.decodeLine line = .ret c) :
    12 ≤ line.length ∧ c.Start = (ParseInt (line.getD 1 []) 64).1 ∧
      c.Finish = (ParseInt (line.getD 2 []) 64).1 ∧
      c.Answer = (ParseInt (line.getD 3 []) 64).1 := by
  unfold Client.decodeLine at h
  obtain ⟨record, _, h⟩ := Run.bind_eq_ret _ _ _ h
  obtain ⟨start, hstart, h⟩ := Run.bind_eq_ret _ _ _ h
  obtain ⟨finish, hfinish, h⟩ := Run.bind_eq_ret _ _ _ h
  obtain ⟨answer, hanswer, h⟩ := Run.bind_eq_ret _ _ _ h
  obtain ⟨disconnectReason, _, h⟩ := Run.bind_eq_ret _ _ _ h
  obtain ⟨fromExtension, _, h⟩ := Run.bind_eq_ret _ _ _ h
  obtain ⟨fromNumber, _, h⟩ := Run.bind_eq_ret _ _ _ h
  obtain ⟨toExtension, _, h⟩ := Run.bind_eq_ret _ _ _ h
  obtain ⟨toNumber, _, h⟩ := Run.bind_eq_ret _ _ _ h
  obtain ⟨lineNumber, _, h⟩ := Run.bind_eq_ret _ _ _ h
  obtain ⟨location, _, h⟩ := Run.bind_eq_ret _ _ _ h
  obtain ⟨entryId, hentry, h⟩ := Run.bind_eq_ret _ _ _ h
  obtain ⟨f1, hf1, h1⟩ := Run.bind_eq_ret _ _ _ hstart
  obtain ⟨f2, hf2, h2⟩ := Run.bind_eq_ret _ _ _ hfinish
  obtain ⟨f3, hf3, h3⟩ := Run.bind_eq_ret _ _ _ hanswer
  have e1 := (index_eq_ret line statsFieldStart f1 [] hf1).1
  have e2 := (index_eq_ret line statsFieldFinish f2 [] hf2).1
  have e3 := (index_eq_ret line statsFieldAnswer f3 [] hf3).1
  have e11 := (index_eq_ret line statsFieldEntryId entryId [] hentry).2
  cases h
  cases h1
  cases h2
  cases h3
  simp only [statsFieldStart, statsFieldFinish, statsFieldAnswer, statsFieldEntryId] at e1 e2 e3 e11
  rw [e1, e2, e3]
  exact ⟨e11, rfl, rfl, rfl⟩

/-! ### Bodies of rows separated by newlines -/

theorem bodySeparated_concat (rows : List (List GoString)) (last : List GoString) :
    bodySeparated (rows ++ [last]) = bodyOfRows rows ++ rowText last := by
  induction rows with
  | nil => simp [bodySeparated, bodyOfRows, List.intercalate, List.intersperse]
  | cons r rs ih =>
    have hstep : bodySeparated (r :: (rs ++ [last])) =
        rowText r ++ nl :: bodySeparated (rs ++ [last]) := by
      cases rs with
      | nil => simp [bodySeparated, List.intercalate, List.intersperse]
      | cons r2 rs => simp [bodySeparated, List.intercalate, List.intersperse]
    rw [List.cons_append, hstep, ih]
    simp [bodyOfRows]

theorem statsUnmarshal_bodySeparated (client : Client) (rows : List (List GoString))
    (hwf : ∀ fs ∈ rows, wellFormedRow fs) :
    client.statsUnmarshal (bodySeparated rows) = .ret (rows.map rowCall, none) := by
  rcases List.eq_nil_or_concat rows with rfl | ⟨init, last, rfl⟩
  · exact statsUnmarshal_bodyOfRows client [] (by simp)
  · rw [List.concat_eq_append] at hwf ⊢
    rw [bodySeparated_concat, List.map_append]
    exact statsUnmarshal_bodyOfRows_last client init last
      (fun r hr => hwf r (List.mem_append.mpr (Or.inl hr)))
      (hwf last (List.mem_append.mpr (Or.inr (List.mem_singleton.mpr rfl))))

theorem statsUnmarshal_bodyOfRows_append_separated (client : Client)
    (rows rows2 : List (List GoString)) (hwf : ∀ fs ∈ rows, wellFormedRow fs)
    (hwf2 : ∀ fs ∈ rows2, wellFormedRow fs) :
    client.statsUnmarshal (bodyOfRows rows ++ bodySeparated rows2) =
      .ret (rows.map rowCall ++ rows2.map rowCall, none) := by
  rcases List.eq_nil_or_concat rows2 with rfl | ⟨init, last, rfl⟩
  · simpa [bodySeparated, List.intercalate] using statsUnmarshal_bodyOfRows client rows hwf
  · rw [List.concat_eq_append] at hwf2 ⊢
    have hcat : bodyOfRows rows ++ bodySeparated (init ++ [last]) =
        bodyOfRows (rows ++ init) ++ rowText last := by
      rw [bodySeparated_concat]
      simp [bodyOfRows]
    rw [hcat, statsUnmarshal_bodyOfRows_last client (rows ++ init) last
      (fun r hr => (List.mem_append.mp hr).elim (hwf r)
        (fun h => hwf2 r (List.mem_append.mpr (Or.inl h))))
      (hwf2 last (List.mem_append.mpr (Or.inr (List.mem_singleton.mpr rfl))))]
    simp

/-! ## Properties of the client -/

theorem Stats_of_response (client : Client) (lib : Lib) (key requestId : GoString)
    (resp : Response) (e : GoError)
    (h : lib.PostForm pathStatsResult (client.formData (lib.Marshal (.ofStatsKey ⟨key⟩))) =
      (some resp, e)) :
    client.Stats lib key requestId =
      if resp.StatusCode = 200 then
        (client.statsUnmarshal resp.Body).bind (fun calls => .ret (calls.1, none))
      else if resp.StatusCode = 404 then
        .ret ([], some (utf8 "data not found, sended invalid/wrong/expired key"))
      else if resp.StatusCode = 204 then
        .ret ([], some (utf8 "data not ready, retry after 5 seconds"))
      else
        .ret ([], some (utf8 "unknow error, code: " ++ fmtInt resp.StatusCode ++
          utf8 ", body: " ++ resp.Body)) := by
  simp only [Client.Stats, Client.post, h, readAll, statusCode, Run.ret_bind]
  split_ifs <;> rfl

/-- C1 fails: on a response with status 200 and body `x` the decoder panics on the one-byte
first field, and so does `Stats`, which then returns neither a nil error nor records. -/
theorem Stats_status_200_counterexample :
    ¬ (∀ (client : Client) (lib : Lib) (key requestId : GoString) (resp : Response)
        (e : GoError),
        lib.PostForm pathStatsResult (client.formData (lib.Marshal (.ofStatsKey ⟨key⟩))) =
          (some resp, e) →
        resp.StatusCode = 200 →
        ∃ calls, client.Stats lib key requestId = .ret (calls, none)) := by
  intro h
  obtain ⟨calls, hc⟩ := h ⟨[], []⟩ (libAnswering ⟨200, utf8 "x", none⟩) [] []
    ⟨200, utf8 "x", none⟩ none rfl rfl
  have hp : Client.Stats ⟨[], []⟩ (libAnswering ⟨200, utf8 "x", none⟩) [] [] =
      .panics .sliceBoundsOutOfRange := by decide
  rw [hp] at hc
  cases hc

/-- C1, amended: `Stats` maps the status of the result poll to its outcome. With status 200,
whenever `statsUnmarshal` returns for the body, `Stats` returns the records it decoded with a
nil error; with 404 and 204 it returns no records and the "not found" and "not ready"
errors; with any other status it returns no records and an error whose message holds the
status code in decimal and the raw body. -/
theorem Stats_status_mapping (client : Client) (lib : Lib) (key requestId : GoString)
    (resp : Response) (e : GoError)
    (h : lib.PostForm pathStatsResult (client.formData (lib.Marshal (.ofStatsKey ⟨key⟩))) =
      (some resp, e)) :
    (resp.StatusCode = 200 →
      ∀ calls err, client.statsUnmarshal resp.Body = .ret (calls, err) →
        client.Stats lib key requestId = .ret (calls, none)) ∧
    (resp.StatusCode = 404 →
      client.Stats lib key requestId =
        .ret ([], some (utf8 "data not found, sended invalid/wrong/expired key"))) ∧
    (resp.StatusCode = 204 →
      client.Stats lib key requestId =
        .ret ([], some (utf8 "data not ready, retry after 5 seconds"))) ∧
    (resp.StatusCode ≠ 200 → resp.StatusCode ≠ 404 → resp.StatusCode ≠ 204 →
      ∃ msg : GoString, client.Stats lib key requestId = .ret ([], some msg) ∧
        msg = utf8 "unknow error, code: " ++ fmtInt resp.StatusCode ++ utf8 ", body: " ++
          resp.Body ∧
        fmtInt resp.StatusCode <:+: msg ∧ resp.Body <:+: msg) := by
  have hS := Stats_of_response client lib key requestId resp e h
  refine ⟨fun h200 => ?_, fun h404 => ?_, fun h204 => ?_, fun n200 n404 n204 => ?_⟩
  · rw [if_pos h200] at hS
    intro calls err hu
    rw [hS, hu]; rfl
  · have n200 : resp.StatusCode ≠ 200 := by omega
    rw [if_neg n200, if_pos h404] at hS
    exact hS
  · have n200 : resp.StatusCode ≠ 200 := by omega
    have n404 : resp.StatusCode ≠ 404 := by omega
    rw [if_neg n200, if_neg n404, if_pos h204] at hS
    exact hS
  · rw [if_neg n200, if_neg n404, if_neg n204] at hS
    refine ⟨_, hS, rfl, ?_, ?_⟩
    · exact ⟨utf8 "unknow error, code: ", utf8 ", body: " ++ resp.Body, by simp⟩
    · exact ⟨utf8 "unknow error, code: " ++ fmtInt resp.StatusCode ++ utf8 ", body: ", [],
        by simp⟩

theorem Stats_status_mapping_witness :
    Client.Stats ⟨utf8 "k", utf8 "s"⟩ (libAnswering ⟨500, utf8 "oops", none⟩) (utf8 "key") [] =
      .ret ([], some (utf8 "unknow error, code: 500, body: oops")) ∧
    Client.Stats ⟨utf8 "k", utf8 "s"⟩
        (libAnswering ⟨200, utf8 "[1,2];10;20;30;a;b;c;d;16;l;loc;e1\n", none⟩) (utf8 "key") [] =
      .ret ([rowCall [utf8 "[1,2]", utf8 "10", utf8 "20", utf8 "30", utf8 "a", utf8 "b",
        utf8 "c", utf8 "d", utf8 "16", utf8 "l", utf8 "loc", utf8 "e1"]], none) := by
  obtain ⟨msg, h1, h2, _⟩ :=
    (Stats_status_mapping ⟨utf8 "k", utf8 "s"⟩ (libAnswering ⟨500, utf8 "oops", none⟩)
      (utf8 "key") [] ⟨500, utf8 "oops", none⟩ none rfl).2.2.2 (by decide) (by decide) (by decide)
  refine ⟨?_, (Stats_status_mapping ⟨utf8 "k", utf8 "s"⟩
    (libAnswering ⟨200, utf8 "[1,2];10;20;30;a;b;c;d;16;l;loc;e1\n", none⟩) (utf8 "key") []
    ⟨200, utf8 "[1,2];10;20;30;a;b;c;d;16;l;loc;e1\n", none⟩ none rfl).1 rfl _ none (by decide)⟩
  rw [h1, h2]
  decide

/-- C7, the code at the failing input: on a 200 response whose body is `a"` the decoder
`statsUnmarshal` returns the error "error read CSV", and `Stats` returns a nil error. -/
theorem Stats_swallows_decode_error (client : Client) (key requestId : GoString) :
    client.statsUnmarshal (utf8 "a\"") = .ret ([], some (utf8 "error read CSV")) ∧
    client.Stats (libAnswering ⟨200, utf8 "a\"", none⟩) key requestId = .ret ([], none) :=
  ⟨rfl, rfl⟩

/-- C8, the code at the failing input: when the transport fails (no response, an error),
`Stats`, `StatsKey` and `User` all panic on the nil response instead of returning an error. -/
theorem transport_failure_panics (client : Client) (key requestId extension : GoString)
    (fromDate toDate : Time) :
    (∀ url form, libFailing.PostForm url form =
      (none, some (utf8 "dial tcp: connection refused"))) ∧
    client.Stats libFailing key requestId = .panics .nilDereference ∧
    client.StatsKey libFailing fromDate toDate requestId = .panics .nilDereference ∧
    client.User libFailing extension = .panics .nilDereference :=
  ⟨fun _ _ => rfl, rfl, rfl, rfl⟩

/-- C2, the code at the failing input: a single row of 11 fields makes `statsUnmarshal` panic
with an index out of range, where a short row after a row of 12 fields gives the error
"error read CSV". -/
theorem statsUnmarshal_short_row_panics :
    Client.statsUnmarshal ⟨[], []⟩ (utf8 "[1,2];10;20;30;a;b;c;d;16;l;loc") =
      .panics .indexOutOfRange ∧
    Client.statsUnmarshal ⟨[], []⟩
        (utf8 "[1,2];10;20;30;a;b;c;d;16;l;loc;e1\n[1,2];10;20;30;a;b;c;d;16;l;loc") =
      .ret ([rowCall [utf8 "[1,2]", utf8 "10", utf8 "20", utf8 "30", utf8 "a", utf8 "b",
               utf8 "c", utf8 "d", utf8 "16", utf8 "l", utf8 "loc", utf8 "e1"]],
        some (utf8 "error read CSV")) := by
  decide

/-- C5: decoding undoes the bracketed rendering of a non-empty list of non-empty, comma-free
strings: `stringToSlice("[" ++ join(",", xs) ++ "]")` returns `xs` with a nil error. -/
theorem stringToSlice_join_nonempty (client : Client) (xs : List GoString) (hxs : xs ≠ [])
    (_hne : ∀ x ∈ xs, x ≠ []) (hcomma : ∀ x ∈ xs, comma ∉ x) :
    client.stringToSlice ([91] ++ stringsJoin xs comma ++ [93]) = .ret (xs, none) := by
  rw [stringToSlice_bracket, stringsSplit, stringsJoin, List.splitOn_intercalate xs comma hcomma hxs]

theorem stringToSlice_join_nonempty_witness :
    Client.stringToSlice ⟨[], []⟩ (utf8 "[1,2,3]") = .ret ([utf8 "1", utf8 "2", utf8 "3"], none) :=
  stringToSlice_join_nonempty ⟨[], []⟩ [utf8 "1", utf8 "2", utf8 "3"] (by decide) (by decide)
    (by decide)

/-- C6 fails at the empty list: its rendering `[]` decodes to a list holding one empty string. -/
theorem stringToSlice_empty_list_counterexample :
    ¬ (∀ (client : Client) (xs : List GoString), (∀ x ∈ xs, comma ∉ x) →
        client.stringToSlice ([91] ++ stringsJoin xs comma ++ [93]) = .ret (xs, none)) := by
  intro h
  have h0 := h ⟨[], []⟩ [] (by simp)
  revert h0
  decide

/-- C6, amended: for every non-empty list of comma-free strings (empty strings allowed),
`stringToSlice` recovers the list from its bracketed rendering; the rendering `[]` of the empty
list decodes to the list holding one empty string. -/
theorem stringToSlice_join (client : Client) :
    (∀ xs : List GoString, xs ≠ [] → (∀ x ∈ xs, comma ∉ x) →
      client.stringToSlice ([91] ++ stringsJoin xs comma ++ [93]) = .ret (xs, none)) ∧
    client.stringToSlice ([91] ++ stringsJoin [] comma ++ [93]) = .ret ([[]], none) := by
  refine ⟨fun xs hxs hcomma => ?_, ?_⟩
  · rw [stringToSlice_bracket, stringsSplit, stringsJoin,
      List.splitOn_intercalate xs comma hcomma hxs]
  · rw [stringToSlice_bracket]; rfl

theorem stringToSlice_join_witness :
    Client.stringToSlice ⟨[], []⟩ (utf8 "[a,,b]") = .ret ([utf8 "a", [], utf8 "b"], none) :=
  (stringToSlice_join ⟨[], []⟩).1 [utf8 "a", [], utf8 "b"] (by decide) (by decide)

/-- C3: a single row of exactly 12 clean fields joined by `;`, the first of at least 2 bytes,
decodes with a nil error to exactly one `Call` whose fields match positionally: `Records` is
what `stringToSlice` returns for field 0, `Start`, `Finish`, `Answer` are `ParseInt` of fields
1 to 3, `DisconnectReason` is `Atoi` of field 8, and the other eight fields are copied. -/
theorem statsUnmarshal_single_row (client : Client)
    (f0 f1 f2 f3 f4 f5 f6 f7 f8 f9 f10 f11 : GoString)
    (hclean : ∀ f ∈ [f0, f1, f2, f3, f4, f5, f6, f7, f8, f9, f10, f11], cleanField f)
    (h0 : 2 ≤ f0.length) :
    client.stringToSlice f0 =
      .ret (stringsSplit ((f0.drop 1).take (f0.length - 2)) comma, none) ∧
    client.statsUnmarshal
        (stringsJoin [f0, f1, f2, f3, f4, f5, f6, f7, f8, f9, f10, f11] semicolon) =
      .ret ([{ Records := stringsSplit ((f0.drop 1).take (f0.length - 2)) comma
               Start := (ParseInt f1 64).1
               Finish := (ParseInt f2 64).1
               Answer := (ParseInt f3 64).1
               FromExtension := f4
               FromNumber := f5
               ToExtension := f6
               ToNumber := f7
               DisconnectReason := (Atoi f8).1
               LineNumber := f9
               Location := f10
               EntryId := f11 }], none) := by
  refine ⟨stringToSlice_of_two_le client f0 h0, ?_⟩
  have h := statsUnmarshal_bodyOfRows_last client []
    [f0, f1, f2, f3, f4, f5, f6, f7, f8, f9, f10, f11] (by simp) ⟨rfl, hclean, h0⟩
  simpa [bodyOfRows, rowText, rowCall] using h

theorem statsUnmarshal_single_row_witness :
    Client.statsUnmarshal ⟨[], []⟩ (utf8 "[1,2];10;20;-3;a;b;c;d;16;l;loc;e1") =
      .ret ([{ Records := [utf8 "1", utf8 "2"]
               Start := 10
               Finish := 20
               Answer := -3
               FromExtension := utf8 "a"
               FromNumber := utf8 "b"
               ToExtension := utf8 "c"
               ToNumber := utf8 "d"
               DisconnectReason := 16
               LineNumber := utf8 "l"
               Location := utf8 "loc"
               EntryId := utf8 "e1" }], none) :=
  (statsUnmarshal_single_row ⟨[], []⟩ (utf8 "[1,2]") (utf8 "10") (utf8 "20") (utf8 "-3")
    (utf8 "a") (utf8 "b") (utf8 "c") (utf8 "d") (utf8 "16") (utf8 "l") (utf8 "loc") (utf8 "e1")
    (by decide) (by decide)).2

/-- C9 fails: when two bodies of one well-formed row each, without a final newline, are
concatenated, the two rows run into one line of 23 fields, which decodes to one call. -/
theorem concatenation_unterminated_counterexample :
    ¬ (∀ (client : Client) (rows1 rows2 : List (List GoString)),
        (∀ fs ∈ rows1, wellFormedRow fs) → (∀ fs ∈ rows2, wellFormedRow fs) →
        ∀ calls1 calls2 : List Call,
          client.statsUnmarshal (bodySeparated rows1) = .ret (calls1, none) →
          client.statsUnmarshal (bodySeparated rows2) = .ret (calls2, none) →
          client.statsUnmarshal (bodySeparated rows1 ++ bodySeparated rows2) =
            .ret (calls1 ++ calls2, none)) := by
  intro h
  have h0 := h ⟨[], []⟩
    [[utf8 "[1,2]", utf8 "10", utf8 "20", utf8 "30", utf8 "a", utf8 "b", utf8 "c", utf8 "d",
      utf8 "16", utf8 "l", utf8 "loc", utf8 "e1"]]
    [[utf8 "[1,2]", utf8 "10", utf8 "20", utf8 "30", utf8 "a", utf8 "b", utf8 "c", utf8 "d",
      utf8 "16", utf8 "l", utf8 "loc", utf8 "e1"]] (by decide) (by decide)
    [rowCall [utf8 "[1,2]", utf8 "10", utf8 "20", utf8 "30", utf8 "a", utf8 "b", utf8 "c",
      utf8 "d", utf8 "16", utf8 "l", utf8 "loc", utf8 "e1"]]
    [rowCall [utf8 "[1,2]", utf8 "10", utf8 "20", utf8 "30", utf8 "a", utf8 "b", utf8 "c",
      utf8 "d", utf8 "16", utf8 "l", utf8 "loc", utf8 "e1"]] (by decide) (by decide)
  revert h0
  decide

/-- C9, amended: a body of `n >= 0` well-formed rows, each on its own line (every row ended
by a newline, or the rows separated by newlines with none after the last), decodes with a
nil error to exactly `n` calls, the i-th being the decoding of the i-th row; the empty body
gives no calls; and decoding the concatenation of two such bodies gives the concatenation of
their decodings when every row of the first body is ended by a newline. -/
theorem statsUnmarshal_rows_in_order (client : Client) (rows : List (List GoString))
    (hwf : ∀ fs ∈ rows, wellFormedRow fs) :
    client.statsUnmarshal (bodyOfRows rows) = .ret (rows.map rowCall, none) ∧
    client.statsUnmarshal (bodySeparated rows) = .ret (rows.map rowCall, none) ∧
    (rows.map rowCall).length = rows.length ∧
    (∀ fs ∈ rows, client.decodeLine fs = .ret (rowCall fs)) ∧
    (∀ last : List GoString, wellFormedRow last →
      client.statsUnmarshal (bodyOfRows rows ++ rowText last) =
        .ret (rows.map rowCall ++ [rowCall last], none)) ∧
    client.statsUnmarshal [] = .ret ([], none) ∧
    (∀ rows2 : List (List GoString), (∀ fs ∈ rows2, wellFormedRow fs) →
      ∀ calls1 calls2 : List Call,
        client.statsUnmarshal (bodyOfRows rows) = .ret (calls1, none) →
        client.statsUnmarshal (bodyOfRows rows2) = .ret (calls2, none) →
        client.statsUnmarshal (bodyOfRows rows ++ bodyOfRows rows2) =
          .ret (calls1 ++ calls2, none)) ∧
    (∀ rows2 : List (List GoString), (∀ fs ∈ rows2, wellFormedRow fs) →
      ∀ calls1 calls2 : List Call,
        client.statsUnmarshal (bodyOfRows rows) = .ret (calls1, none) →
        client.statsUnmarshal (bodySeparated rows2) = .ret (calls2, none) →
        client.statsUnmarshal (bodyOfRows rows ++ bodySeparated rows2) =
          .ret (calls1 ++ calls2, none)) := by
  refine ⟨statsUnmarshal_bodyOfRows client rows hwf, statsUnmarshal_bodySeparated client rows hwf,
    by simp, ?_, ?_, ?_, ?_, ?_⟩
  · intro fs hfs
    exact decodeLine_of_twelve client fs (hwf fs hfs).1 (hwf fs hfs).2.2
  · intro last hlast
    exact statsUnmarshal_bodyOfRows_last client rows last hwf hlast
  · exact statsUnmarshal_bodyOfRows client [] (by simp)
  · intro rows2 hwf2 calls1 calls2 h1 h2
    rw [statsUnmarshal_bodyOfRows client rows hwf] at h1
    rw [statsUnmarshal_bodyOfRows client rows2 hwf2] at h2
    cases h1
    cases h2
    have hcat : bodyOfRows rows ++ bodyOfRows rows2 = bodyOfRows (rows ++ rows2) := by
      simp [bodyOfRows]
    rw [hcat, statsUnmarshal_bodyOfRows client (rows ++ rows2)
      (fun fs hfs => (List.mem_append.mp hfs).elim (hwf fs) (hwf2 fs)), List.map_append]
  · intro rows2 hwf2 calls1 calls2 h1 h2
    rw [statsUnmarshal_bodyOfRows client rows hwf] at h1
    rw [statsUnmarshal_bodySeparated client rows2 hwf2] at h2
    cases h1
    cases h2
    exact statsUnmarshal_bodyOfRows_append_separated client rows rows2 hwf hwf2

set_option maxRecDepth 100000 in
theorem statsUnmarshal_rows_in_order_witness :
    Client.statsUnmarshal ⟨[], []⟩
        (utf8 "[1,2];10;20;-3;a;b;c;d;16;l;loc;e1\n[7];30;40;35;e;f;g;h;17;m;loc;e2\n") =
      .ret ([rowCall [utf8 "[1,2]", utf8 "10", utf8 "20", utf8 "-3", utf8 "a", utf8 "b",
               utf8 "c", utf8 "d", utf8 "16", utf8 "l", utf8 "loc", utf8 "e1"],
             rowCall [utf8 "[7]", utf8 "30", utf8 "40", utf8 "35", utf8 "e", utf8 "f",
               utf8 "g", utf8 "h", utf8 "17", utf8 "m", utf8 "loc", utf8 "e2"]], none) ∧
    Client.statsUnmarshal ⟨[], []⟩
        (utf8 "[1,2];10;20;-3;a;b;c;d;16;l;loc;e1\n[7];30;40;35;e;f;g;h;17;m;loc;e2") =
      .ret ([rowCall [utf8 "[1,2]", utf8 "10", utf8 "20", utf8 "-3", utf8 "a", utf8 "b",
               utf8 "c", utf8 "d", utf8 "16", utf8 "l", utf8 "loc", utf8 "e1"],
             rowCall [utf8 "[7]", utf8 "30", utf8 "40", utf8 "35", utf8 "e", utf8 "f",
               utf8 "g", utf8 "h", utf8 "17", utf8 "m", utf8 "loc", utf8 "e2"]], none) :=
  ⟨(statsUnmarshal_rows_in_order ⟨[], []⟩
    [[utf8 "[1,2]", utf8 "10", utf8 "20", utf8 "-3", utf8 "a", utf8 "b",
       utf8 "c", utf8 "d", utf8 "16", utf8 "l", utf8 "loc", utf8 "e1"],
     [utf8 "[7]", utf8 "30", utf8 "40", utf8 "35", utf8 "e", utf8 "f",
       utf8 "g", utf8 "h", utf8 "17", utf8 "m", utf8 "loc", utf8 "e2"]] (by decide)).1,
   (statsUnmarshal_rows_in_order ⟨[], []⟩
    [[utf8 "[1,2]", utf8 "10", utf8 "20", utf8 "-3", utf8 "a", utf8 "b",
       utf8 "c", utf8 "d", utf8 "16", utf8 "l", utf8 "loc", utf8 "e1"],
     [utf8 "[7]", utf8 "30", utf8 "40", utf8 "35", utf8 "e", utf8 "f",
       utf8 "g", utf8 "h", utf8 "17", utf8 "m", utf8 "loc", utf8 "e2"]] (by decide)).2.1⟩

/-- C11: when the response body decodes to a users list, `User` returns the error
`user <extension> not found` (and the zero user) if the list is empty, and the first element
with a nil error if it is not; a zero-user response never yields a nil error. -/
theorem User_of_users (client : Client) (lib : Lib) (extension : GoString) (resp : Response)
    (e : GoError) (users : List User)
    (hpost : lib.PostForm pathUsers
      (client.formData (lib.Marshal (.ofUserExtension ⟨extension⟩))) = (some resp, e))
    (hread : resp.ReadErr = none)
    (hjson : lib.UnmarshalUsers resp.Body = (users, none)) :
    (users = [] →
      client.User lib extension =
        .ret (User.zero, some (utf8 "user " ++ extension ++ utf8 " not found"))) ∧
    (∀ u rest, users = u :: rest → client.User lib extension = .ret (u, none)) ∧
    (users = [] → ∀ u, client.User lib extension ≠ .ret (u, none)) := by
  have hU : client.User lib extension =
      (match lib.UnmarshalUsers resp.Body with
      | ([], _) => .ret (User.zero, some (utf8 "user " ++ extension ++ utf8 " not found"))
      | (u :: _, _) => .ret (u, none)) := by
    simp only [Client.User, Client.post, hpost, readAll, hread, hjson, Run.ret_bind, ne_eq,
      not_true_eq_false, if_false]
    cases users <;> rfl
  rw [hjson] at hU
  refine ⟨fun h => ?_, fun u rest h => ?_, fun h u hu => ?_⟩
  · subst h; exact hU
  · subst h; exact hU
  · subst h
    rw [hU] at hu
    cases hu

theorem User_of_users_witness :
    Client.User ⟨utf8 "k", utf8 "s"⟩
        (libDecoding ⟨200, utf8 "{}", none⟩ (⟨[]⟩, none) ([], none)) (utf8 "101") =
      .ret (User.zero, some (utf8 "user 101 not found")) ∧
    Client.User ⟨utf8 "k", utf8 "s"⟩
        (libDecoding ⟨200, utf8 "{}", none⟩ (⟨[]⟩, none)
          ([userNamed (utf8 "Ann") (utf8 "101"), userNamed (utf8 "Bob") (utf8 "101")], none))
        (utf8 "101") =
      .ret (userNamed (utf8 "Ann") (utf8 "101"), none) :=
  ⟨(User_of_users ⟨utf8 "k", utf8 "s"⟩ (libDecoding ⟨200, utf8 "{}", none⟩ (⟨[]⟩, none) ([], none))
      (utf8 "101") ⟨200, utf8 "{}", none⟩ none [] rfl rfl rfl).1 rfl,
    (User_of_users ⟨utf8 "k", utf8 "s"⟩
      (libDecoding ⟨200, utf8 "{}", none⟩ (⟨[]⟩, none)
        ([userNamed (utf8 "Ann") (utf8 "101"), userNamed (utf8 "Bob") (utf8 "101")], none))
      (utf8 "101") ⟨200, utf8 "{}", none⟩ none _ rfl rfl rfl).2.1 _ _ rfl⟩

/-- C14: for every response the transport returns, `StatsKey` returns the key the JSON decoder
left in its target together with a nil error, whatever error the decoder reports: the empty
key when the decoder rejects the body (empty or not valid JSON) and leaves the target
untouched, and `t` when the body decodes to the key `t`. -/
theorem StatsKey_never_errors (client : Client) (lib : Lib) (fromDate toDate : Time)
    (requestId : GoString) (resp : Response) (e : GoError)
    (hpost : lib.PostForm pathStatsRequest
      (client.formData (lib.Marshal
        (.ofStats (newStats fromDate.Unix toDate.Unix requestId)))) = (some resp, e)) :
    client.StatsKey lib fromDate toDate requestId =
      .ret ((lib.UnmarshalStatsKey resp.Body).1.Key, none) ∧
    (∀ err, lib.UnmarshalStatsKey resp.Body = (⟨[]⟩, some err) →
      client.StatsKey lib fromDate toDate requestId = .ret ([], none)) ∧
    (∀ t, lib.UnmarshalStatsKey resp.Body = (⟨t⟩, none) →
      client.StatsKey lib fromDate toDate requestId = .ret (t, none)) ∧
    (∀ key err, client.StatsKey lib fromDate toDate requestId = .ret (key, err) → err = none) := by
  have hK : client.StatsKey lib fromDate toDate requestId =
      .ret ((lib.UnmarshalStatsKey resp.Body).1.Key, none) := by
    simp only [Client.StatsKey, hpost, readAll, Run.ret_bind, Run.pure_eq]
  refine ⟨hK, fun err h => ?_, fun t h => ?_, fun key err h => ?_⟩
  · rw [hK, h]
  · rw [hK, h]
  · rw [hK] at h
    cases h
    rfl

theorem StatsKey_never_errors_witness :
    Client.StatsKey ⟨utf8 "k", utf8 "s"⟩
        (libDecoding ⟨200, [], none⟩ (⟨[]⟩, some (utf8 "unexpected end of JSON input")) ([], none))
        ⟨0⟩ ⟨86400⟩ (utf8 "r1") = .ret ([], none) :=
  (StatsKey_never_errors ⟨utf8 "k", utf8 "s"⟩
    (libDecoding ⟨200, [], none⟩ (⟨[]⟩, some (utf8 "unexpected end of JSON input")) ([], none))
    ⟨0⟩ ⟨86400⟩ (utf8 "r1") ⟨200, [], none⟩ none rfl).2.1 _ rfl

/-- C17: the three definitions of the export field layout agree. The constant `statsFields`
is the 12 names joined by `,` in order, it is the join of the list of the method
`statsFields()`, it is what `newStats` sends, and at the position of each index constant
the list holds the name of the field the constant denotes. -/
theorem statsFields_layout (client : Client) :
    statsFields = stringsJoin [utf8 "records", utf8 "start", utf8 "finish", utf8 "answer",
      utf8 "from_extension", utf8 "from_number", utf8 "to_extension", utf8 "to_number",
      utf8 "disconnect_reason", utf8 "line_number", utf8 "location", utf8 "entry_id"] comma ∧
    statsFields = stringsJoin client.statsFields comma ∧
    client.statsFields.length = 12 ∧
    (∀ fromDate toDate requestId, (newStats fromDate toDate requestId).Fields = statsFields) ∧
    client.statsFields.get? statsFieldRecords = some (utf8 "records") ∧
    client.statsFields.get? statsFieldStart = some (utf8 "start") ∧
    client.statsFields.get? statsFieldFinish = some (utf8 "finish") ∧
    client.statsFields.get? statsFieldAnswer = some (utf8 "answer") ∧
    client.statsFields.get? statsFieldFromExtension = some (utf8 "from_extension") ∧
    client.statsFields.get? statsFieldFromNumber = some (utf8 "from_number") ∧
    client.statsFields.get? statsFieldToExtension = some (utf8 "to_extension") ∧
    client.statsFields.get? statsFieldToNumber = some (utf8 "to_number") ∧
    client.statsFields.get? statsFieldDisconnectReason = some (utf8 "disconnect_reason") ∧
    client.statsFields.get? statsFieldLineNumber = some (utf8 "line_number") ∧
    client.statsFields.get? statsFieldLocation = some (utf8 "location") ∧
    client.statsFields.get? statsFieldEntryId = some (utf8 "entry_id") := by
  have h1 : statsFields = stringsJoin [utf8 "records", utf8 "start", utf8 "finish",
      utf8 "answer", utf8 "from_extension", utf8 "from_number", utf8 "to_extension",
      utf8 "to_number", utf8 "disconnect_reason", utf8 "line_number", utf8 "location",
      utf8 "entry_id"] comma := by decide
  exact ⟨h1, h1, rfl, fun _ _ _ => rfl, rfl, rfl, rfl, rfl, rfl, rfl, rfl, rfl, rfl, rfl, rfl,
    rfl⟩

/-- C12 fails: key, payload and salt are concatenated without separators, so the triples
(`a`, `b`, empty salt) and (empty key, `ab`, empty salt) differ and have the same signature. -/
theorem sign_not_injective_counterexample :
    ¬ (∀ (k p s k1 p1 s1 : GoString), (k, p, s) ≠ (k1, p1, s1) →
        Client.sign ⟨k, s⟩ p ≠ Client.sign ⟨k1, s1⟩ p1) := by
  intro h
  exact h (utf8 "a") (utf8 "b") [] [] (utf8 "ab") [] (by decide) rfl

/-- C12, amended: two signatures differ exactly when the SHA-256 digests of the two
concatenations key ++ payload ++ salt differ; triples with the same concatenation share
their signature, and a change of the key, of the payload or of the salt that changes the
digest changes the signature, as the three changes of the known-answer input `{}` do. -/
theorem sign_differs_iff_digest_differs :
    (∀ (k p s k1 p1 s1 : GoString),
      Client.sign ⟨k, s⟩ p ≠ Client.sign ⟨k1, s1⟩ p1 ↔
        Sum256 (k ++ p ++ s) ≠ Sum256 (k1 ++ p1 ++ s1)) ∧
    (∀ (k p s k1 p1 s1 : GoString), k ++ p ++ s = k1 ++ p1 ++ s1 →
      Client.sign ⟨k, s⟩ p = Client.sign ⟨k1, s1⟩ p1) ∧
    Client.sign ⟨utf8 "k", []⟩ (utf8 "{}") ≠ Client.sign ⟨[], []⟩ (utf8 "{}") ∧
    Client.sign ⟨[], []⟩ (utf8 "{ }") ≠ Client.sign ⟨[], []⟩ (utf8 "{}") ∧
    Client.sign ⟨[], utf8 "s"⟩ (utf8 "{}") ≠ Client.sign ⟨[], []⟩ (utf8 "{}") := by
  refine ⟨fun k p s k1 p1 s1 => ?_, fun k p s k1 p1 s1 h => ?_, by decide, by decide, by decide⟩
  · constructor
    · intro h e
      exact h (congrArg fmtHex e)
    · intro h e
      exact h (fmtHex_injective _ _ e)
  · simp only [Client.sign, h]

theorem sign_differs_iff_digest_differs_witness :
    Client.sign ⟨utf8 "a", []⟩ (utf8 "b") = Client.sign ⟨[], []⟩ (utf8 "ab") :=
  sign_differs_iff_digest_differs.2.1 (utf8 "a") (utf8 "b") [] [] (utf8 "ab") [] rfl

/-- C16 fails: on `[1,2,3]` the code returns `1`, `2`, `3`, while removing the first and the
last two bytes and splitting on `,` gives `1`, `2` and the empty string. -/
theorem stringToSlice_last_two_counterexample :
    ¬ (∀ (client : Client) (s : GoString), 3 ≤ s.length →
        client.stringToSlice s =
          .ret (stringsSplit ((s.drop 1).take (s.length - 3)) comma, none)) := by
  intro h
  have h0 := h ⟨[], []⟩ (utf8 "[1,2,3]") (by decide)
  revert h0
  decide

/-- C16, amended: for every string of at least 3 bytes, `stringToSlice` returns, with a nil
error, the pieces between the commas of the string without its first and its last byte. -/
theorem stringToSlice_strips_one (client : Client) (s : GoString) (h : 3 ≤ s.length) :
    client.stringToSlice s = .ret (stringsSplit s.tail.dropLast comma, none) := by
  rw [stringToSlice_of_two_le client s (by omega)]
  have hd : (s.drop 1).take (s.length - 2) = s.tail.dropLast := by
    rw [List.dropLast_eq_take, List.drop_one, List.length_tail]
    rfl
  rw [hd]

theorem stringToSlice_strips_one_witness :
    Client.stringToSlice ⟨[], []⟩ (utf8 "(7,8,9)x") =
      .ret ([utf8 "7", utf8 "8", utf8 "9)"], none) :=
  stringToSlice_strips_one ⟨[], []⟩ (utf8 "(7,8,9)x") (by decide)

/-- C19 fails: after a row of 12 fields, the row `x;1` has a first field of one byte, yet the
reader rejects it for its field count and `statsUnmarshal` returns "error read CSV" instead
of panicking. -/
theorem short_first_field_counterexample :
    ¬ (∀ (client : Client) (rows : List (List GoString)) (fs : List GoString)
        (rest : List UInt8), (∀ r ∈ rows, wellFormedRow r) → (∀ f ∈ fs, cleanField f) →
        rowText fs ≠ [] → (fs.headD []).length < 2 →
        client.statsUnmarshal (bodyOfRows rows ++ (rowText fs ++ nl :: rest)) =
          .panics .sliceBoundsOutOfRange) := by
  intro h
  have h0 := h ⟨[], []⟩
    [[utf8 "[1,2]", utf8 "10", utf8 "20", utf8 "30", utf8 "a", utf8 "b", utf8 "c", utf8 "d",
      utf8 "16", utf8 "l", utf8 "loc", utf8 "e1"]] [utf8 "x", utf8 "1"] [] (by decide)
    (by decide) (by decide) (by decide)
  revert h0
  decide

/-- C19, amended: the slicing `string[1:][:len(string)-2]` of `stringToSlice` is in bounds
exactly when the string has at least 2 bytes: then the call returns the split of the bytes at
positions 1 to len-2 with a nil error, and on a string of 0 or 1 bytes it panics with a slice
bound out of range; so does `statsUnmarshal` on every record the reader hands over whose
first field is that short: a first row of any field count, and a later row of 12 fields. -/
theorem stringToSlice_in_bounds (client : Client) :
    (∀ s : GoString, 2 ≤ s.length →
      client.stringToSlice s =
        .ret (stringsSplit ((s.drop 1).take (s.length - 2)) comma, none)) ∧
    (∀ s : GoString, s.length < 2 →
      client.stringToSlice s = .panics .sliceBoundsOutOfRange) ∧
    (∀ s : GoString, (∃ r, client.stringToSlice s = .ret r) ↔ 2 ≤ s.length) ∧
    (∀ (fuel : Nat) (reader reader1 : Reader) (calls : List Call) (f0 : GoString)
      (rest : List GoString), reader.Read = ((f0 :: rest, none), reader1) → f0.length < 2 →
      client.statsUnmarshalLoop (fuel + 1) reader calls = .panics .sliceBoundsOutOfRange) ∧
    (∀ (rows : List (List GoString)) (fs : List GoString) (rest : List UInt8),
      (∀ r ∈ rows, wellFormedRow r) → fs.length = 12 → (∀ f ∈ fs, cleanField f) →
      (fs.headD []).length < 2 →
      client.statsUnmarshal (bodyOfRows rows ++ (rowText fs ++ nl :: rest)) =
        .panics .sliceBoundsOutOfRange) ∧
    (∀ (fs : List GoString) (rest : List UInt8), (∀ f ∈ fs, cleanField f) →
      rowText fs ≠ [] → (fs.headD []).length < 2 →
      client.statsUnmarshal (rowText fs ++ nl :: rest) = .panics .sliceBoundsOutOfRange) := by
  refine ⟨fun s h => stringToSlice_of_two_le client s h,
    fun s h => stringToSlice_short client s h, fun s => ⟨fun ⟨r, hr⟩ => ?_, fun h => ?_⟩,
    fun fuel reader reader1 calls f0 rest hread h0 => ?_,
    fun rows fs rest hwf hlen hclean h0 => ?_, fun fs rest hclean hne h0 => ?_⟩
  · by_contra hlt
    rw [stringToSlice_short client s (by omega)] at hr
    cases hr
  · exact ⟨_, stringToSlice_of_two_le client s h⟩
  · exact statsUnmarshalLoop_panics client fuel reader reader1 calls _ _ hread
      (decodeLine_short_first client f0 rest h0)
  · rw [statsUnmarshal_after_rows client rows hwf]
    have hread := Read_row_nl fs rest (if rows = [] then 0 else 12) hclean
      (rowText_ne_nil_of_twelve fs hlen)
    rw [readOutcome_twelve fs hlen _ (expected_fields rows)] at hread
    obtain ⟨f0, f1, f2, f3, f4, f5, f6, f7, f8, f9, f10, f11, rfl⟩ := length_eq_twelve fs hlen
    exact statsUnmarshalLoop_panics client _ _ _ _ _ _ hread
      (decodeLine_short_first client f0 _ h0)
  · have hread := Read_row_nl fs rest 0 hclean hne
    cases fs with
    | nil => exact absurd rfl hne
    | cons f0 fs1 =>
      exact statsUnmarshalLoop_panics client _ _ _ _ _ _ hread
        (decodeLine_short_first client f0 fs1 h0)

theorem stringToSlice_in_bounds_witness :
    Client.stringToSlice ⟨[], []⟩ (utf8 "[]") = .ret ([[]], none) ∧
    Client.stringToSlice ⟨[], []⟩ (utf8 "[") = .panics .sliceBoundsOutOfRange ∧
    Client.statsUnmarshal ⟨[], []⟩ (utf8 "x;10;20;30;a;b;c;d;16;l;loc;e1\n") =
      .panics .sliceBoundsOutOfRange ∧
    Client.statsUnmarshal ⟨[], []⟩ (utf8 "x;1\n") = .panics .sliceBoundsOutOfRange :=
  ⟨(stringToSlice_in_bounds ⟨[], []⟩).1 (utf8 "[]") (by decide),
    (stringToSlice_in_bounds ⟨[], []⟩).2.1 (utf8 "[") (by decide),
    (stringToSlice_in_bounds ⟨[], []⟩).2.2.2.2.1 []
      [utf8 "x", utf8 "10", utf8 "20", utf8 "30", utf8 "a", utf8 "b", utf8 "c", utf8 "d",
        utf8 "16", utf8 "l", utf8 "loc", utf8 "e1"] [] (by decide) (by decide) (by decide)
      (by decide),
    (stringToSlice_in_bounds ⟨[], []⟩).2.2.2.2.2 [utf8 "x", utf8 "1"] [] (by decide)
      (by decide) (by decide)⟩

/-- C13 fails: the row `[1,2];10;20;-3;...` decodes to a call whose `Answer` is `-3`. -/
theorem timestamps_nonnegative_counterexample :
    ¬ (∀ (client : Client) (body : List UInt8) (calls : List Call) (err : GoError),
        client.statsUnmarshal body = .ret (calls, err) →
        ∀ c ∈ calls, 0 ≤ c.Start ∧ 0 ≤ c.Finish ∧ 0 ≤ c.Answer) := by
  intro h
  have h0 := h ⟨[], []⟩ (utf8 "[1,2];10;20;-3;a;b;c;d;16;l;loc;e1")
    [rowCall [utf8 "[1,2]", utf8 "10", utf8 "20", utf8 "-3", utf8 "a", utf8 "b", utf8 "c",
      utf8 "d", utf8 "16", utf8 "l", utf8 "loc", utf8 "e1"]] none (by decide) _
    (List.mem_singleton.mpr rfl)
  revert h0
  decide

/-- C13, amended: every call `statsUnmarshal` returns, for every input body, is the decoding
of a record of at least 12 fields whose timestamps are `ParseInt` of fields 1, 2 and 3; each
timestamp is non-negative unless its field begins with `-` (then it is at most 0), and lies
in the int64 range. In particular the calls of well-formed rows whose fields 1 to 3 have no
leading `-` have `Start >= 0`, `Finish >= 0` and `Answer >= 0`. -/
theorem timestamps_sign (client : Client) :
    (∀ (body : List UInt8) (calls : List Call) (err : GoError),
      client.statsUnmarshal body = .ret (calls, err) →
      ∀ c ∈ calls, ∃ line : List GoString,
        client.decodeLine line = .ret c ∧ 12 ≤ line.length ∧
        c.Start = (ParseInt (line.getD 1 []) 64).1 ∧
        c.Finish = (ParseInt (line.getD 2 []) 64).1 ∧
        c.Answer = (ParseInt (line.getD 3 []) 64).1 ∧
        ((line.getD 1 []).head? ≠ some 45 → 0 ≤ c.Start) ∧
        ((line.getD 2 []).head? ≠ some 45 → 0 ≤ c.Finish) ∧
        ((line.getD 3 []).head? ≠ some 45 → 0 ≤ c.Answer) ∧
        ((line.getD 1 []).head? = some 45 → c.Start ≤ 0) ∧
        ((line.getD 2 []).head? = some 45 → c.Finish ≤ 0) ∧
        ((line.getD 3 []).head? = some 45 → c.Answer ≤ 0) ∧
        (-9223372036854775808 ≤ c.Start ∧ c.Start ≤ 9223372036854775807) ∧
        (-9223372036854775808 ≤ c.Finish ∧ c.Finish ≤ 9223372036854775807) ∧
        (-9223372036854775808 ≤ c.Answer ∧ c.Answer ≤ 9223372036854775807)) ∧
    (∀ rows : List (List GoString), (∀ fs ∈ rows, wellFormedRow fs) →
      (∀ fs ∈ rows, (fs.getD 1 []).head? ≠ some 45 ∧ (fs.getD 2 []).head? ≠ some 45 ∧
        (fs.getD 3 []).head? ≠ some 45) →
      ∃ calls, client.statsUnmarshal (bodyOfRows rows) = .ret (calls, none) ∧
        calls.length = rows.length ∧
        ∀ c ∈ calls, 0 ≤ c.Start ∧ 0 ≤ c.Finish ∧ 0 ≤ c.Answer) := by
  constructor
  · intro body calls err h
    refine statsUnmarshalLoop_invariant client _ ?_ _ _ [] calls err (by simp) h
    intro line c hc
    obtain ⟨hlen, h1, h2, h3⟩ := decodeLine_fields client line c hc
    refine ⟨line, hc, hlen, h1, h2, h3, ?_, ?_, ?_, ?_, ?_, ?_, ?_, ?_, ?_⟩
    · rw [h1]; exact (ParseInt_sign _).1
    · rw [h2]; exact (ParseInt_sign _).1
    · rw [h3]; exact (ParseInt_sign _).1
    · rw [h1]; exact (ParseInt_sign _).2
    · rw [h2]; exact (ParseInt_sign _).2
    · rw [h3]; exact (ParseInt_sign _).2
    · rw [h1]; exact ParseInt_range _
    · rw [h2]; exact ParseInt_range _
    · rw [h3]; exact ParseInt_range _
  · intro rows hwf hsign
    refine ⟨rows.map rowCall, statsUnmarshal_bodyOfRows client rows hwf, by simp, ?_⟩
    intro c hc
    obtain ⟨fs, hfs, rfl⟩ := List.mem_map.mp hc
    obtain ⟨s1, s2, s3⟩ := hsign fs hfs
    exact ⟨(ParseInt_sign _).1 s1, (ParseInt_sign _).1 s2, (ParseInt_sign _).1 s3⟩

theorem timestamps_sign_witness :
    ∃ calls, Client.statsUnmarshal ⟨[], []⟩
        (bodyOfRows [[utf8 "[1,2]", utf8 "10", utf8 "20", utf8 "0", utf8 "a", utf8 "b",
          utf8 "c", utf8 "d", utf8 "16", utf8 "l", utf8 "loc", utf8 "e1"]]) =
        .ret (calls, none) ∧
      calls.length = 1 ∧ ∀ c ∈ calls, 0 ≤ c.Start ∧ 0 ≤ c.Finish ∧ 0 ≤ c.Answer :=
  (timestamps_sign ⟨[], []⟩).2
    [[utf8 "[1,2]", utf8 "10", utf8 "20", utf8 "0", utf8 "a", utf8 "b", utf8 "c", utf8 "d",
      utf8 "16", utf8 "l", utf8 "loc", utf8 "e1"]] (by decide) (by decide)

/-- C15 fails: in a well-formed row whose field 1 is the digit string `9223372036854775808`,
one above the largest int64, `Start` is `9223372036854775807`, not 0. -/
theorem parse_failure_zero_counterexample :
    ¬ (∀ (client : Client) (fs : List GoString), wellFormedRow fs →
        (ParseInt (fs.getD 1 []) 64).2 ≠ none →
        ∃ c, client.statsUnmarshal (rowText fs) = .ret ([c], none) ∧ c.Start = 0) := by
  intro h
  obtain ⟨c, hc, h0⟩ := h ⟨[], []⟩
    [utf8 "[1,2]", utf8 "9223372036854775808", utf8 "20", utf8 "30", utf8 "a", utf8 "b",
      utf8 "c", utf8 "d", utf8 "16", utf8 "l", utf8 "loc", utf8 "e1"] (by decide) (by decide)
  have hrow := statsUnmarshal_bodyOfRows_last ⟨[], []⟩ []
    [utf8 "[1,2]", utf8 "9223372036854775808", utf8 "20", utf8 "30", utf8 "a", utf8 "b",
      utf8 "c", utf8 "d", utf8 "16", utf8 "l", utf8 "loc", utf8 "e1"] (by simp) (by decide)
  simp only [bodyOfRows, List.flatMap_nil, List.nil_append, List.map_nil] at hrow
  rw [hrow] at hc
  cases hc
  revert h0
  decide

/-- C15, amended: a well-formed 12-field row decodes with a nil error whatever its fields 1,
2 and 3 hold; where `ParseInt` reports a syntax error (empty text, text that is not a number)
the timestamp is 0, and where it reports a range error (a digit string outside the int64
range) the timestamp is the bound of its sign, `2^63 - 1` or, after a `-`, `-2^63`. -/
theorem parse_failure_values (client : Client) (fs : List GoString) (hwf : wellFormedRow fs) :
    client.statsUnmarshal (rowText fs) = .ret ([rowCall fs], none) ∧
    (rowCall fs).Start = (ParseInt (fs.getD 1 []) 64).1 ∧
    (rowCall fs).Finish = (ParseInt (fs.getD 2 []) 64).1 ∧
    (rowCall fs).Answer = (ParseInt (fs.getD 3 []) 64).1 ∧
    ∀ s : GoString,
      (s = [] → ParseInt s 64 = (0, some .notANumber)) ∧
      ((ParseInt s 64).2 = some .notANumber → (ParseInt s 64).1 = 0) ∧
      ((ParseInt s 64).2 = some .outOfRange →
        (ParseInt s 64).1 = if s.head? = some 45 then -9223372036854775808
          else 9223372036854775807) := by
  have hrow := statsUnmarshal_bodyOfRows_last client [] fs (by simp) hwf
  simp only [bodyOfRows, List.flatMap_nil, List.nil_append, List.map_nil] at hrow
  refine ⟨hrow, rfl, rfl, rfl, fun s => ⟨fun hs => ?_, ParseInt_error_value s⟩⟩
  subst hs
  rfl

theorem parse_failure_values_witness :
    Client.statsUnmarshal ⟨[], []⟩
        (utf8 "[1,2];abc;;-9223372036854775809;a;b;c;d;16;l;loc;e1") =
      .ret ([{ Records := [utf8 "1", utf8 "2"]
               Start := 0
               Finish := 0
               Answer := -9223372036854775808
               FromExtension := utf8 "a"
               FromNumber := utf8 "b"
               ToExtension := utf8 "c"
               ToNumber := utf8 "d"
               DisconnectReason := 16
               LineNumber := utf8 "l"
               Location := utf8 "loc"
               EntryId := utf8 "e1" }], none) :=
  (parse_failure_values ⟨[], []⟩
    [utf8 "[1,2]", utf8 "abc", [], utf8 "-9223372036854775809", utf8 "a", utf8 "b", utf8 "c",
      utf8 "d", utf8 "16", utf8 "l", utf8 "loc", utf8 "e1"] (by decide)).1

/-- C18: when the CSV reader rejects the row after `k-1` decoded rows with an error other than
EOF, `statsUnmarshal` stops and returns the error "error read CSV" together with exactly the
decodings of rows `1..k-1`, whatever follows the rejected row; a row whose field count differs
from the first row is such a row. -/
theorem statsUnmarshal_read_error_keeps_decoded (client : Client) (rows : List (List GoString))
    (hwf : ∀ fs ∈ rows, wellFormedRow fs) :
    (∀ (tail : List UInt8) (line : List GoString) (e : CsvError) (reader1 : Reader),
      e ≠ .EOF →
      Reader.Read ⟨tail, if rows = [] then 0 else 12⟩ = ((line, some e), reader1) →
      client.statsUnmarshal (bodyOfRows rows ++ tail) =
        .ret (rows.map rowCall, some (utf8 "error read CSV"))) ∧
    (∀ (fs : List GoString) (rest : List UInt8), rows ≠ [] → (∀ f ∈ fs, cleanField f) →
      rowText fs ≠ [] → fs.length ≠ 12 →
      client.statsUnmarshal (bodyOfRows rows ++ (rowText fs ++ nl :: rest)) =
        .ret (rows.map rowCall, some (utf8 "error read CSV"))) ∧
    (rows.map rowCall).length = rows.length := by
  refine ⟨fun tail line e reader1 he hread => ?_, fun fs rest hrows hclean hne hlen => ?_,
    by simp⟩
  · rw [statsUnmarshal_after_rows client rows hwf]
    exact statsUnmarshalLoop_read_error client _ _ reader1 _ line e he hread
  · rw [statsUnmarshal_after_rows client rows hwf]
    have hread := Read_row_nl fs rest (if rows = [] then 0 else 12) hclean hne
    simp only [readOutcome, hrows, if_false, Nat.lt_irrefl, ne_eq, hlen, not_false_eq_true,
      and_self, if_true, Nat.zero_lt_succ, true_and] at hread
    simp only [hrows, if_false]
    exact statsUnmarshalLoop_read_error client _ _ _ _ fs .ErrFieldCount (by decide) hread

set_option maxRecDepth 100000 in
theorem statsUnmarshal_read_error_keeps_decoded_witness :
    Client.statsUnmarshal ⟨[], []⟩
        (utf8 "[1,2];10;20;30;a;b;c;d;16;l;loc;e1\n[3];40;50\n[4];60;70;80;a;b;c;d;16;l;loc;e3\n") =
      .ret ([rowCall [utf8 "[1,2]", utf8 "10", utf8 "20", utf8 "30", utf8 "a", utf8 "b",
               utf8 "c", utf8 "d", utf8 "16", utf8 "l", utf8 "loc", utf8 "e1"]],
        some (utf8 "error read CSV")) :=
  (statsUnmarshal_read_error_keeps_decoded ⟨[], []⟩
    [[utf8 "[1,2]", utf8 "10", utf8 "20", utf8 "30", utf8 "a", utf8 "b", utf8 "c", utf8 "d",
      utf8 "16", utf8 "l", utf8 "loc", utf8 "e1"]] (by decide)).2.1
    [utf8 "[3]", utf8 "40", utf8 "50"]
    (utf8 "[4];60;70;80;a;b;c;d;16;l;loc;e3\n") (by decide) (by decide) (by decide) (by decide)

end Mango
